import Mathlib

/-!
Verification development for the priority update queue of the
react-reconciler sources (ReactUpdateQueue.js, ReactFiberRoot.js).

Two embeddings are used:

-  a pure, value-level embedding in which the persistent singly linked
   update lists are Lean lists; it captures the state computation of
   processUpdateQueue, getStateFromUpdate and the commit effect walk;
-  a heap embedding (arena of nodes addressed by index) in which the
   pointer structure of the lists is explicit; it captures queue
   cloning, structural sharing between the current queue and the
   work-in-progress queue, and the commit splice.

JavaScript values flowing through state are modelled by JVal: null and
undefined, opaque scalars, strings, and flat objects whose property
values are opaque references, which is enough to express the shallow
merge of Object.assign.  Production builds are modelled; the blocks
guarded by the DEV flag (warnings and double invocation of updater
functions) are omitted.
-/

/-- Model of a JavaScript value as it flows through the update queue.
Object property values are opaque references (Nat), which makes the
Object.assign merge shallow by construction. -/
inductive JVal where
  | jnull
  | jundef
  | jstr (s : String)
  | jobj (fields : List (Nat × Nat))
  | jref (n : Nat)
deriving DecidableEq, Repr, Inhabited

/-- Own enumerable properties of a value; non-objects contribute none. -/
def fieldsOf : JVal → List (Nat × Nat)
  | .jobj fs => fs
  | _ => []

/-- Property lookup; the first binding of a key wins. -/
def jlookup (v : JVal) (k : Nat) : Option Nat :=
  (fieldsOf v).lookup k

/-- The test `partialState === null || partialState === undefined` of
getStateFromUpdate. -/
def isNullish : JVal → Bool
  | .jnull => true
  | .jundef => true
  | _ => false

/-- Model of `Object.assign({}, prevState, partialState)`: a fresh object whose
bindings are those of the partial state, falling back to those of the
previous state.  Putting the partial bindings first makes its keys win
under jlookup. -/
def objAssign (prevState partState : JVal) : JVal :=
  .jobj (fieldsOf partState ++ fieldsOf prevState)

/-- An update payload is either a plain value or an updater function
`(prevState, nextProps) => value` (the `this` binding of the JS call is
irrelevant to the state computed and is omitted). -/
inductive Payload where
  | val (v : JVal)
  | fn (f : JVal → JVal → JVal)

instance : Inhabited Payload := ⟨.val .jnull⟩

/-- Evaluate the payload: a function payload is called with the previous
state and next props, a plain payload is returned as is. -/
def evalPayload : Payload → JVal → JVal → JVal
  | .val v, _, _ => v
  | .fn f, prevState, nextProps => f prevState nextProps

/-- A callback attached to an update: either a function value (carrying
an id so invocation order is observable) or a non-callable value. -/
inductive CbVal where
  | cfun (id : Nat)
  | cval (v : JVal)
deriving Repr

instance : Inhabited CbVal := ⟨.cfun 0⟩

/-- Update record (pure model; the `next` and `nextEffect` links are
implicit in the ambient Lean lists). -/
structure Update where
  expirationTime : Nat
  tag : Nat
  payload : Payload
  callback : Option CbVal

instance : Inhabited Update := ⟨⟨0, 0, default, none⟩⟩

/-- Tag constants of ReactUpdateQueue.js. -/
def UpdateState : Nat := 0
def ReplaceState : Nat := 1
def ForceUpdate : Nat := 2
def CaptureUpdate : Nat := 3

/-- NoWork from ReactFiberExpirationTime (not under src); its value 0 is
forced by its use in processUpdateQueue as the starting accumulator of
the running maximum of skipped expiration times, and by the pending-time
initialisation in createFiberRoot. -/
def NoWork : Nat := 0

/-- Side effect tag bits (shared/ReactSideEffectTags is not under src;
the values are the standard single-bit masks, and no claim depends on
the particular numbers, only on their use). -/
def Callback : Nat := 32
def DidCapture : Nat := 64
def ShouldCapture : Nat := 2048

/-- Clear the single-bit mask b in a, the JS expression a & ~b. -/
def landNot (a b : Nat) : Nat := a - Nat.land a b

/-- The shared body of the UpdateState case (and of the CaptureUpdate
fallthrough): evaluate the payload; null/undefined partial state is a
no-op, otherwise shallow-merge it over the previous state. -/
def updateStateFrom (p : Payload) (prevState nextProps : JVal) : JVal :=
  let partState := evalPayload p prevState nextProps
  if isNullish partState then prevState
  else objAssign prevState partState

/-- getStateFromUpdate.  Result is (nextState, new effectTag of the
work-in-progress fiber, whether the global hasForceUpdate flag is set by
this update).  Tags: 1 = ReplaceState, 3 = CaptureUpdate (mutates the
effect tag, then falls through to the UpdateState body), 0 =
UpdateState, 2 = ForceUpdate. -/
def getStateFromUpdate (effectTag : Nat) (update : Update)
    (prevState nextProps : JVal) : JVal × Nat × Bool :=
  match update.tag with
  | 1 => (evalPayload update.payload prevState nextProps, effectTag, false)
  | 3 => (updateStateFrom update.payload prevState nextProps,
          Nat.lor (landNot effectTag ShouldCapture) DidCapture, false)
  | 0 => (updateStateFrom update.payload prevState nextProps, effectTag, false)
  | 2 => (prevState, effectTag, true)
  | _ => (prevState, effectTag, false)

/-- Update queue (pure model).  firstUpdate is the list of records
reachable from the head pointer through the persistent `next` links; the
lastUpdate tail pointer is kept separately because processUpdateQueue
resets it to null exactly when the new head is null.  Effect lists only
need their contents here, so their tail pointers are implicit. -/
structure UpdateQueue where
  baseState : JVal
  firstUpdate : List Update
  lastUpdate : Option Update
  firstCapturedUpdate : List Update
  lastCapturedUpdate : Option Update
  firstEffect : List Update
  firstCapturedEffect : List Update

/-- Loop state of the first (normal list) while loop of
processUpdateQueue.  newFirstUpdate holds the suffix of the list that
starts at the first skipped update, once one exists.  effectTag is the
effect tag of the work-in-progress fiber, hasForce the global
hasForceUpdate flag. -/
structure LoopState where
  resultState : JVal
  newBaseState : JVal
  newFirstUpdate : Option (List Update)
  newExpirationTime : Nat
  effectTag : Nat
  hasForce : Bool
  effects : List Update

/-- Loop state of the second (captured list) while loop. -/
structure CapLoopState where
  resultState : JVal
  newBaseState : JVal
  newFirstCapturedUpdate : Option (List Update)
  newExpirationTime : Nat
  effectTag : Nat
  hasForce : Bool
  capturedEffects : List Update

/-- The first while loop of processUpdateQueue: walk the normal list.
A record with `updateExpirationTime < renderExpirationTime` is skipped:
the first such record freezes newBaseState at the current result and
becomes the new head, and every skipped record folds its expiration
time into the running maximum.  An eligible record is applied via
getStateFromUpdate and, when it carries a callback, appended to the
effect list. -/
def processListNormal (props : JVal) (renderExpirationTime : Nat) :
    List Update → LoopState → LoopState
  | [], s => s
  | u :: rest, s =>
    if u.expirationTime < renderExpirationTime then
      let s1 :=
        match s.newFirstUpdate with
        | none => { s with newFirstUpdate := some (u :: rest),
                           newBaseState := s.resultState }
        | some _ => s
      let s2 := { s1 with newExpirationTime :=
        if s1.newExpirationTime < u.expirationTime then u.expirationTime
        else s1.newExpirationTime }
      processListNormal props renderExpirationTime rest s2
    else
      let r := getStateFromUpdate s.effectTag u s.resultState props
      let s1 := { s with resultState := r.1, effectTag := r.2.1,
                         hasForce := s.hasForce || r.2.2 }
      let s2 :=
        match u.callback with
        | none => s1
        | some _ => { s1 with effectTag := Nat.lor s1.effectTag Callback,
                              effects := s1.effects ++ [u] }
      processListNormal props renderExpirationTime rest s2

/-- The second while loop of processUpdateQueue: walk the captured list.
Identical to the normal walk except that the captured list has its own
new head pointer, skipped records only freeze newBaseState when the
normal walk skipped nothing (newFirstUpdateIsNone), and callbacks go to
the captured effect list. -/
def processListCaptured (props : JVal) (renderExpirationTime : Nat)
    (newFirstUpdateIsNone : Bool) :
    List Update → CapLoopState → CapLoopState
  | [], s => s
  | u :: rest, s =>
    if u.expirationTime < renderExpirationTime then
      let s1 :=
        match s.newFirstCapturedUpdate with
        | none => { s with newFirstCapturedUpdate := some (u :: rest),
                           newBaseState :=
                             if newFirstUpdateIsNone then s.resultState
                             else s.newBaseState }
        | some _ => s
      let s2 := { s1 with newExpirationTime :=
        if s1.newExpirationTime < u.expirationTime then u.expirationTime
        else s1.newExpirationTime }
      processListCaptured props renderExpirationTime newFirstUpdateIsNone rest s2
    else
      let r := getStateFromUpdate s.effectTag u s.resultState props
      let s1 := { s with resultState := r.1, effectTag := r.2.1,
                         hasForce := s.hasForce || r.2.2 }
      let s2 :=
        match u.callback with
        | none => s1
        | some _ => { s1 with effectTag := Nat.lor s1.effectTag Callback,
                              capturedEffects := s1.capturedEffects ++ [u] }
      processListCaptured props renderExpirationTime newFirstUpdateIsNone rest s2

/-- The work-in-progress fiber, restricted to the fields
processUpdateQueue touches. -/
structure Fiber where
  effectTag : Nat
  expirationTime : Nat
  memoizedState : JVal

/-- processUpdateQueue (pure model).  Returns the updated
work-in-progress fiber, the updated queue, and the global hasForceUpdate
flag as it stands after the call.  The ensureWorkInProgressQueueIsAClone
step is a heap-level concern (the argument queue here is already a
value) and is modelled in the heap embedding below. -/
def processUpdateQueue (workInProgress : Fiber) (queue : UpdateQueue)
    (props : JVal) (renderExpirationTime : Nat) :
    Fiber × UpdateQueue × Bool :=
  let s0 : LoopState :=
    { resultState := queue.baseState, newBaseState := queue.baseState,
      newFirstUpdate := none, newExpirationTime := NoWork,
      effectTag := workInProgress.effectTag, hasForce := false,
      effects := queue.firstEffect }
  let s1 := processListNormal props renderExpirationTime queue.firstUpdate s0
  let c0 : CapLoopState :=
    { resultState := s1.resultState, newBaseState := s1.newBaseState,
      newFirstCapturedUpdate := none,
      newExpirationTime := s1.newExpirationTime, effectTag := s1.effectTag,
      hasForce := s1.hasForce, capturedEffects := queue.firstCapturedEffect }
  let c1 := processListCaptured props renderExpirationTime
    s1.newFirstUpdate.isNone queue.firstCapturedUpdate c0
  let lastUpdate1 :=
    match s1.newFirstUpdate with
    | none => none
    | some _ => queue.lastUpdate
  let lastCaptured1 :=
    match c1.newFirstCapturedUpdate with
    | none => none
    | some _ => queue.lastCapturedUpdate
  let effectTag1 :=
    match c1.newFirstCapturedUpdate with
    | none => c1.effectTag
    | some _ => Nat.lor c1.effectTag Callback
  let newBase :=
    if s1.newFirstUpdate.isNone && c1.newFirstCapturedUpdate.isNone then
      c1.resultState
    else c1.newBaseState
  let queue1 : UpdateQueue :=
    { baseState := newBase,
      firstUpdate := (s1.newFirstUpdate).getD [],
      lastUpdate := lastUpdate1,
      firstCapturedUpdate := (c1.newFirstCapturedUpdate).getD [],
      lastCapturedUpdate := lastCaptured1,
      firstEffect := s1.effects,
      firstCapturedEffect := c1.capturedEffects }
  let fiber1 : Fiber :=
    { effectTag := effectTag1, expirationTime := c1.newExpirationTime,
      memoizedState := c1.resultState }
  (fiber1, queue1, c1.hasForce)

/-- Run processUpdateQueue once per deadline in the list, each pass
starting from the fiber and queue left by the previous pass. -/
def runPasses (props : JVal) : List Nat → Fiber → UpdateQueue →
    Fiber × UpdateQueue × Bool
  | [], f, q => (f, q, false)
  | d :: rest, f, q =>
    let r := processUpdateQueue f q props d
    match rest with
    | [] => r
    | _ => runPasses props rest r.1 r.2.1

/-- A record is skipped at deadline d exactly when its expiration time
is numerically below d. -/
def skipB (d : Nat) (u : Update) : Bool := decide (u.expirationTime < d)

/-- A record is eligible (applied) at deadline d when it is not skipped. -/
def eligB (d : Nat) (u : Update) : Bool := !(decide (u.expirationTime < d))

/-- Whether a record carries a callback. -/
def hasCb (u : Update) : Bool := u.callback.isSome

/-- The running maximum of expiration times, exactly as
processUpdateQueue folds it. -/
def maxETfold (init : Nat) (l : List Update) : Nat :=
  l.foldl (fun a u => if a < u.expirationTime then u.expirationTime else a) init

/-- Application of one eligible record to the (state, effectTag,
hasForce) triple, as the eligible branch of the loops performs it. -/
def applyOne (props : JVal) (st : JVal × Nat × Bool) (u : Update) :
    JVal × Nat × Bool :=
  let r := getStateFromUpdate st.2.1 u st.1 props
  (r.1,
   (match u.callback with
    | none => r.2.1
    | some _ => Nat.lor r.2.1 Callback),
   st.2.2 || r.2.2)

/-- Fold applyOne over a list of records. -/
def applyList (props : JVal) (st : JVal × Nat × Bool) (l : List Update) :
    JVal × Nat × Bool :=
  l.foldl (applyOne props) st

/-- The pure state component of replay: fold the state produced by
getStateFromUpdate over a list of records. -/
def stateFold (props : JVal) (s : JVal) (l : List Update) : JVal :=
  l.foldl (fun st u => (getStateFromUpdate 0 u st props).1) s

/-- Observable identity of a callable callback, used to state invocation
order. -/
def cbId (u : Update) : Option Nat :=
  match u.callback with
  | some (.cfun id) => some id
  | _ => none

/-- A record whose callback slot will not trip the invariant at commit:
either no callback or a callable one. -/
def okCb (u : Update) : Bool :=
  match u.callback with
  | some (.cval _) => false
  | _ => true

/-- Clear the callback slot of a record. -/
def clearCb (u : Update) : Update := { u with callback := none }

/-- callCallback: the invariant rejects a non-callable value with a fatal
error; a function value is invoked (its id is returned so that the
invocation is observable). -/
def callCallback : CbVal → Except String Nat
  | .cfun id => .ok id
  | .cval _ =>
    .error "Invalid argument passed as callback. Expected a function."

/-- commitUpdateEffects (pure model): walk the effect list; a record
with a callback has the slot cleared and the callback invoked.  Returns
the invocation order and the records as they stand after the walk. -/
def commitUpdateEffects : List Update → Except String (List Nat × List Update)
  | [] => .ok ([], [])
  | e :: rest =>
    match e.callback with
    | none =>
      match commitUpdateEffects rest with
      | .error msg => .error msg
      | .ok (tr, es) => .ok (tr, e :: es)
    | some cb =>
      match callCallback cb with
      | .error msg => .error msg
      | .ok id =>
        match commitUpdateEffects rest with
        | .error msg => .error msg
        | .ok (tr, es) => .ok (id :: tr, clearCb e :: es)

/-- commitUpdateQueue (pure model).  The pointer-level splice of the
captured list onto the tail of the normal list (performed only when the
normal tail pointer is non-null) appears at the list level as an append;
then both effect lists are drained in order and cleared.  Returns the
callback invocation order and the queue after commit. -/
def commitUpdateQueue (q : UpdateQueue) : Except String (List Nat × UpdateQueue) :=
  let q1 :=
    if q.firstCapturedUpdate.isEmpty then q
    else
      let q2 :=
        match q.lastUpdate with
        | none => q
        | some _ =>
          { q with firstUpdate := q.firstUpdate ++ q.firstCapturedUpdate,
                   lastUpdate := q.lastCapturedUpdate }
      { q2 with firstCapturedUpdate := [], lastCapturedUpdate := none }
  match commitUpdateEffects q1.firstEffect with
  | .error msg => .error msg
  | .ok (tr1, _) =>
    let q2 := { q1 with firstEffect := [] }
    match commitUpdateEffects q2.firstCapturedEffect with
    | .error msg => .error msg
    | .ok (tr2, _) =>
      .ok (tr1 ++ tr2, { q2 with firstCapturedEffect := [] })

/-- Concrete records and queues used by the witness theorems. -/
def exAppend (c : String) : Payload :=
  .fn (fun prev _ => match prev with
    | .jstr s => .jstr (s ++ c)
    | _ => .jstr c)

def exA : Update := ⟨2, 1, exAppend "A", none⟩
def exB : Update := ⟨1, 1, exAppend "B", none⟩
def exC : Update := ⟨2, 1, exAppend "C", none⟩
def exD : Update := ⟨1, 1, exAppend "D", none⟩

def exF : Fiber := ⟨0, 0, .jnull⟩

def exQ1 : UpdateQueue :=
  { baseState := .jstr "", firstUpdate := [exA, exB, exC, exD],
    lastUpdate := some exD, firstCapturedUpdate := [],
    lastCapturedUpdate := none, firstEffect := [], firstCapturedEffect := [] }

/-- A queue holding a single normal record. -/
def singletonQueue (b : JVal) (u : Update) : UpdateQueue :=
  { baseState := b, firstUpdate := [u], lastUpdate := some u,
    firstCapturedUpdate := [], lastCapturedUpdate := none,
    firstEffect := [], firstCapturedEffect := [] }

def exU1 : Update := ⟨5, 0, .val (.jobj [(0, 7)]), none⟩
def exU2 : Update := ⟨1, 0, .val (.jobj [(1, 8)]), none⟩

def exQ2 : UpdateQueue :=
  { baseState := .jobj [], firstUpdate := [exU1, exU2],
    lastUpdate := some exU2, firstCapturedUpdate := [],
    lastCapturedUpdate := none, firstEffect := [], firstCapturedEffect := [] }

def exQ5 : UpdateQueue :=
  { baseState := .jobj [], firstUpdate := [⟨1, 0, .val (.jobj []), none⟩,
      ⟨2, 0, .val (.jobj []), none⟩],
    lastUpdate := some ⟨2, 0, .val (.jobj []), none⟩,
    firstCapturedUpdate := [], lastCapturedUpdate := none,
    firstEffect := [], firstCapturedEffect := [] }

def exE1 : Update := ⟨0, 0, .val .jnull, some (.cfun 5)⟩
def exE2 : Update := ⟨0, 0, .val .jnull, none⟩
def exE3 : Update := ⟨0, 0, .val .jnull, some (.cfun 7)⟩
def exEbad : Update := ⟨0, 0, .val .jnull, some (.cval (.jstr "oops"))⟩

def exQC6 : UpdateQueue :=
  { baseState := .jnull, firstUpdate := [], lastUpdate := none,
    firstCapturedUpdate := [], lastCapturedUpdate := none,
    firstEffect := [exE1, exE2], firstCapturedEffect := [exE3] }

/-!
### Heap embedding

The pointer structure of ReactUpdateQueue.js is made explicit: update
records, queues and fibers live in arenas indexed by Nat, and the JS
object identity tests (queue1 === queue2, queue === current.updateQueue)
become index equality.  Out-of-range reads return a default node; the
theorems below carry the in-range hypotheses the code guarantees.
-/

namespace HeapModel

/-- Update record with explicit next / nextEffect links. -/
structure UNode where
  expirationTime : Nat
  tag : Nat
  payload : Payload
  callback : Option CbVal
  next : Option Nat
  nextEffect : Option Nat
deriving Inhabited

/-- UpdateQueue object with explicit pointers. -/
structure QNode where
  baseState : JVal
  firstUpdate : Option Nat
  lastUpdate : Option Nat
  firstCapturedUpdate : Option Nat
  lastCapturedUpdate : Option Nat
  firstEffect : Option Nat
  lastEffect : Option Nat
  firstCapturedEffect : Option Nat
  lastCapturedEffect : Option Nat
deriving Inhabited, DecidableEq

/-- Fiber object, restricted to the fields the update queue code touches. -/
structure FNode where
  tag : Nat
  alternate : Option Nat
  updateQueue : Option Nat
  memoizedState : JVal
  effectTag : Nat
  expirationTime : Nat
deriving Inhabited

/-- The heap: one arena per object kind. -/
structure Heap where
  updates : List UNode
  queues : List QNode
  fibers : List FNode

def Heap.getU (h : Heap) (i : Nat) : UNode := h.updates.getD i default

def Heap.setU (h : Heap) (i : Nat) (u : UNode) : Heap :=
  { h with updates := h.updates.set i u }

def Heap.getQ (h : Heap) (i : Nat) : QNode := h.queues.getD i default

def Heap.setQ (h : Heap) (i : Nat) (q : QNode) : Heap :=
  { h with queues := h.queues.set i q }

def Heap.getF (h : Heap) (i : Nat) : FNode := h.fibers.getD i default

def Heap.setF (h : Heap) (i : Nat) (f : FNode) : Heap :=
  { h with fibers := h.fibers.set i f }

/-- Allocate a queue object, returning its index. -/
def allocQ (h : Heap) (q : QNode) : Heap × Nat :=
  ({ h with queues := h.queues ++ [q] }, h.queues.length)

/-- createUpdateQueue: a fresh queue with the given base state. -/
def createUpdateQueue (h : Heap) (baseState : JVal) : Heap × Nat :=
  allocQ h
    { baseState := baseState, firstUpdate := none, lastUpdate := none,
      firstCapturedUpdate := none, lastCapturedUpdate := none,
      firstEffect := none, lastEffect := none,
      firstCapturedEffect := none, lastCapturedEffect := none }

/-- The queue object produced by cloneUpdateQueue: baseState /
firstUpdate / lastUpdate are copied, captured and effect lists reset. -/
def cloneNode (cq : QNode) : QNode :=
  { baseState := cq.baseState, firstUpdate := cq.firstUpdate,
    lastUpdate := cq.lastUpdate,
    firstCapturedUpdate := none, lastCapturedUpdate := none,
    firstEffect := none, lastEffect := none,
    firstCapturedEffect := none, lastCapturedEffect := none }

/-- cloneUpdateQueue: allocate a clone of the queue at qi. -/
def cloneUpdateQueue (h : Heap) (qi : Nat) : Heap × Nat :=
  allocQ h (cloneNode (h.getQ qi))

/-- appendUpdateToQueue: append a preallocated record to the end of the
normal list. -/
def appendUpdateToQueue (h : Heap) (qi ui : Nat) : Heap :=
  let q := h.getQ qi
  match q.lastUpdate with
  | none => h.setQ qi { q with firstUpdate := some ui, lastUpdate := some ui }
  | some li =>
    let h1 := h.setU li { h.getU li with next := some ui }
    h1.setQ qi { q with lastUpdate := some ui }

/-- enqueueUpdate.  Queues are created or cloned lazily; with an
alternate present the record is made visible to both queues, physically
once when the two non-empty lists share their tail. -/
def enqueueUpdate (h0 : Heap) (fi ui : Nat) : Heap :=
  let fiber := h0.getF fi
  match fiber.alternate with
  | none =>
    match fiber.updateQueue with
    | some q1 => appendUpdateToQueue h0 q1 ui
    | none =>
      let r := createUpdateQueue h0 fiber.memoizedState
      let h2 := r.1.setF fi { r.1.getF fi with updateQueue := some r.2 }
      appendUpdateToQueue h2 r.2 ui
  | some ai =>
    let hqq :=
      match fiber.updateQueue, (h0.getF ai).updateQueue with
      | none, none =>
        let r1 := createUpdateQueue h0 (h0.getF fi).memoizedState
        let hb := r1.1.setF fi { r1.1.getF fi with updateQueue := some r1.2 }
        let r2 := createUpdateQueue hb (hb.getF ai).memoizedState
        let hd := r2.1.setF ai { r2.1.getF ai with updateQueue := some r2.2 }
        (hd, r1.2, r2.2)
      | none, some qb =>
        let r := cloneUpdateQueue h0 qb
        let hb := r.1.setF fi { r.1.getF fi with updateQueue := some r.2 }
        (hb, r.2, qb)
      | some qa, none =>
        let r := cloneUpdateQueue h0 qa
        let hb := r.1.setF ai { r.1.getF ai with updateQueue := some r.2 }
        (hb, qa, r.2)
      | some qa, some qb => (h0, qa, qb)
    let h1 := hqq.1
    let q1 := hqq.2.1
    let q2 := hqq.2.2
    if q1 = q2 then appendUpdateToQueue h1 q1 ui
    else if (h1.getQ q1).lastUpdate = none ∨ (h1.getQ q2).lastUpdate = none then
      let h2 := appendUpdateToQueue h1 q1 ui
      appendUpdateToQueue h2 q2 ui
    else
      let h2 := appendUpdateToQueue h1 q1 ui
      h2.setQ q2 { h2.getQ q2 with lastUpdate := some ui }

/-- ensureWorkInProgressQueueIsAClone: if the work-in-progress queue is
the same object as the current queue, replace it with a private clone. -/
def ensureWorkInProgressQueueIsAClone (h : Heap) (fi qi : Nat) : Heap × Nat :=
  match (h.getF fi).alternate with
  | none => (h, qi)
  | some ci =>
    if (h.getF ci).updateQueue = some qi then
      let r := cloneUpdateQueue h qi
      (r.1.setF fi { r.1.getF fi with updateQueue := some r.2 }, r.2)
    else (h, qi)

/-- enqueueCapturedUpdate: captured records go only to the
work-in-progress queue, which is first guaranteed to be a private clone;
the record is appended to the end of the captured list. -/
def enqueueCapturedUpdate (h0 : Heap) (fi ui : Nat) : Heap :=
  let hq :=
    match (h0.getF fi).updateQueue with
    | none =>
      let r := createUpdateQueue h0 (h0.getF fi).memoizedState
      (r.1.setF fi { r.1.getF fi with updateQueue := some r.2 }, r.2)
    | some qi0 => ensureWorkInProgressQueueIsAClone h0 fi qi0
  let h1 := hq.1
  let qi := hq.2
  let q := h1.getQ qi
  match q.lastCapturedUpdate with
  | none =>
    h1.setQ qi { q with firstCapturedUpdate := some ui,
                        lastCapturedUpdate := some ui }
  | some li =>
    let h2 := h1.setU li { h1.getU li with next := some ui }
    h2.setQ qi { q with lastCapturedUpdate := some ui }

/-- View of a heap record as a pure-model record. -/
def toUpdate (u : UNode) : Update :=
  ⟨u.expirationTime, u.tag, u.payload, u.callback⟩

/-- Accumulator of the normal-list while loop of the heap
processUpdateQueue. -/
structure HAcc where
  h : Heap
  newBaseState : JVal
  newFirstUpdate : Option Nat
  newExpirationTime : Nat
  resultState : JVal
  hasForce : Bool

/-- Normal-list while loop of processUpdateQueue on the heap.  The fuel
bounds the walk; it is instantiated so that it exceeds the length of any
acyclic chain in the arena. -/
def processLoopNormal (props : JVal) (renderET : Nat) (fi qi : Nat) :
    Nat → Option Nat → HAcc → HAcc
  | 0, _, acc => acc
  | _ + 1, none, acc => acc
  | fuel + 1, some ui, acc =>
    let u := acc.h.getU ui
    if u.expirationTime < renderET then
      let acc1 :=
        match acc.newFirstUpdate with
        | none => { acc with newFirstUpdate := some ui,
                             newBaseState := acc.resultState }
        | some _ => acc
      let acc2 := { acc1 with newExpirationTime :=
        if acc1.newExpirationTime < u.expirationTime then u.expirationTime
        else acc1.newExpirationTime }
      processLoopNormal props renderET fi qi fuel u.next acc2
    else
      let st := getStateFromUpdate (acc.h.getF fi).effectTag (toUpdate u)
        acc.resultState props
      let h1 := acc.h.setF fi { acc.h.getF fi with effectTag := st.2.1 }
      let h2 :=
        match u.callback with
        | none => h1
        | some _ =>
          let hA := h1.setF fi { h1.getF fi with
            effectTag := Nat.lor (h1.getF fi).effectTag Callback }
          let hB := hA.setU ui { hA.getU ui with nextEffect := none }
          match (hB.getQ qi).lastEffect with
          | none => hB.setQ qi { hB.getQ qi with firstEffect := some ui,
                                                 lastEffect := some ui }
          | some le =>
            let hC := hB.setU le { hB.getU le with nextEffect := some ui }
            hC.setQ qi { hC.getQ qi with lastEffect := some ui }
      let acc2 : HAcc :=
        { h := h2, newBaseState := acc.newBaseState,
          newFirstUpdate := acc.newFirstUpdate,
          newExpirationTime := acc.newExpirationTime,
          resultState := st.1, hasForce := acc.hasForce || st.2.2 }
      processLoopNormal props renderET fi qi fuel ((h2.getU ui).next) acc2

/-- Accumulator of the captured-list while loop. -/
structure HAccC where
  h : Heap
  newBaseState : JVal
  newFirstCapturedUpdate : Option Nat
  newExpirationTime : Nat
  resultState : JVal
  hasForce : Bool

/-- Captured-list while loop of processUpdateQueue on the heap. -/
def processLoopCaptured (props : JVal) (renderET : Nat) (fi qi : Nat)
    (newFirstUpdateIsNone : Bool) :
    Nat → Option Nat → HAccC → HAccC
  | 0, _, acc => acc
  | _ + 1, none, acc => acc
  | fuel + 1, some ui, acc =>
    let u := acc.h.getU ui
    if u.expirationTime < renderET then
      let acc1 :=
        match acc.newFirstCapturedUpdate with
        | none => { acc with newFirstCapturedUpdate := some ui,
                             newBaseState :=
                               if newFirstUpdateIsNone then acc.resultState
                               else acc.newBaseState }
        | some _ => acc
      let acc2 := { acc1 with newExpirationTime :=
        if acc1.newExpirationTime < u.expirationTime then u.expirationTime
        else acc1.newExpirationTime }
      processLoopCaptured props renderET fi qi newFirstUpdateIsNone fuel u.next acc2
    else
      let st := getStateFromUpdate (acc.h.getF fi).effectTag (toUpdate u)
        acc.resultState props
      let h1 := acc.h.setF fi { acc.h.getF fi with effectTag := st.2.1 }
      let h2 :=
        match u.callback with
        | none => h1
        | some _ =>
          let hA := h1.setF fi { h1.getF fi with
            effectTag := Nat.lor (h1.getF fi).effectTag Callback }
          let hB := hA.setU ui { hA.getU ui with nextEffect := none }
          match (hB.getQ qi).lastCapturedEffect with
          | none => hB.setQ qi { hB.getQ qi with firstCapturedEffect := some ui,
                                                 lastCapturedEffect := some ui }
          | some le =>
            let hC := hB.setU le { hB.getU le with nextEffect := some ui }
            hC.setQ qi { hC.getQ qi with lastCapturedEffect := some ui }
      let acc2 : HAccC :=
        { h := h2, newBaseState := acc.newBaseState,
          newFirstCapturedUpdate := acc.newFirstCapturedUpdate,
          newExpirationTime := acc.newExpirationTime,
          resultState := st.1, hasForce := acc.hasForce || st.2.2 }
      processLoopCaptured props renderET fi qi newFirstUpdateIsNone fuel
        ((h2.getU ui).next) acc2

/-- processUpdateQueue on the heap: clone the work-in-progress queue if
it is shared with current, walk both lists, then write the new base
state, head pointers, tail resets and fiber fields.  Returns the heap
and the global hasForceUpdate flag. -/
def processUpdateQueue (h0 : Heap) (fi qi0 : Nat) (props : JVal)
    (renderET : Nat) : Heap × Bool :=
  let r := ensureWorkInProgressQueueIsAClone h0 fi qi0
  let h1 := r.1
  let qi := r.2
  let q := h1.getQ qi
  let fuel := h1.updates.length + 1
  let a0 : HAcc :=
    { h := h1, newBaseState := q.baseState, newFirstUpdate := none,
      newExpirationTime := NoWork, resultState := q.baseState,
      hasForce := false }
  let a1 := processLoopNormal props renderET fi qi fuel q.firstUpdate a0
  let c0 : HAccC :=
    { h := a1.h, newBaseState := a1.newBaseState,
      newFirstCapturedUpdate := none,
      newExpirationTime := a1.newExpirationTime,
      resultState := a1.resultState, hasForce := a1.hasForce }
  let c1 := processLoopCaptured props renderET fi qi a1.newFirstUpdate.isNone
    fuel ((a1.h.getQ qi).firstCapturedUpdate) c0
  let h2 := c1.h
  let h3 :=
    if a1.newFirstUpdate.isNone then
      h2.setQ qi { h2.getQ qi with lastUpdate := none }
    else h2
  let h4 :=
    if c1.newFirstCapturedUpdate.isNone then
      h3.setQ qi { h3.getQ qi with lastCapturedUpdate := none }
    else h3.setF fi { h3.getF fi with
      effectTag := Nat.lor (h3.getF fi).effectTag Callback }
  let newBase :=
    if a1.newFirstUpdate.isNone && c1.newFirstCapturedUpdate.isNone then
      c1.resultState
    else c1.newBaseState
  let h5 := h4.setQ qi { h4.getQ qi with
                         baseState := newBase,
                         firstUpdate := a1.newFirstUpdate,
                         firstCapturedUpdate := c1.newFirstCapturedUpdate }
  let h6 := h5.setF fi { h5.getF fi with
    expirationTime := c1.newExpirationTime,
    memoizedState := c1.resultState }
  (h6, c1.hasForce)

/-- callCallback on the heap (the invocation itself has no heap effect). -/
def callCallback : CbVal → Except String Unit
  | .cfun _ => .ok ()
  | .cval _ =>
    .error "Invalid argument passed as callback. Expected a function."

/-- commitUpdateEffects on the heap: walk the nextEffect chain, clearing
each callback slot before invoking it. -/
def commitUpdateEffects (h : Heap) : Nat → Option Nat → Except String Heap
  | _, none => .ok h
  | 0, some _ => .error "effect chain exceeds arena size"
  | fuel + 1, some ei =>
    let e := h.getU ei
    match e.callback with
    | none => commitUpdateEffects h fuel e.nextEffect
    | some cb =>
      let h1 := h.setU ei { e with callback := none }
      match callCallback cb with
      | .error msg => .error msg
      | .ok _ => commitUpdateEffects h1 fuel ((h1.getU ei).nextEffect)

/-- commitUpdateQueue on the heap: splice the captured list onto the
tail of the normal list when both the captured head and the normal tail
are non-null, clear the captured pointers, then drain and clear both
effect lists. -/
def commitUpdateQueue (h0 : Heap) (qi : Nat) : Except String Heap :=
  let q := h0.getQ qi
  let h1 :=
    match q.firstCapturedUpdate with
    | none => h0
    | some fcu =>
      let hA :=
        match q.lastUpdate with
        | none => h0
        | some lu =>
          let hB := h0.setU lu { h0.getU lu with next := some fcu }
          hB.setQ qi { hB.getQ qi with lastUpdate := (hB.getQ qi).lastCapturedUpdate }
      hA.setQ qi { hA.getQ qi with firstCapturedUpdate := none,
                                   lastCapturedUpdate := none }
  match commitUpdateEffects h1 (h1.updates.length + 1) ((h1.getQ qi).firstEffect) with
  | .error msg => .error msg
  | .ok h2 =>
    let h3 := h2.setQ qi { h2.getQ qi with firstEffect := none, lastEffect := none }
    match commitUpdateEffects h3 (h3.updates.length + 1) ((h3.getQ qi).firstCapturedEffect) with
    | .error msg => .error msg
    | .ok h4 =>
      .ok (h4.setQ qi { h4.getQ qi with firstCapturedEffect := none,
                                        lastCapturedEffect := none })

/-- The list of record indices reachable from a head pointer through the
next links, for an acyclic chain ending in a null link. -/
inductive IsChain (h : Heap) : Option Nat → List Nat → Prop where
  | nil : IsChain h none []
  | cons (i : Nat) (rest : List Nat) :
      IsChain h (h.getU i).next rest → IsChain h (some i) (i :: rest)

end HeapModel

/-- Concrete heap for the heap-model witnesses: two fibers that are
alternates of each other, two distinct queues sharing the single-node
chain [0] as tail, and a fresh preallocated record 1. -/
def exH4 : HeapModel.Heap :=
  { updates := [⟨0, 0, .val .jnull, none, none, none⟩,
                ⟨0, 0, .val .jnull, none, none, none⟩],
    queues := [⟨.jnull, some 0, some 0, none, none, none, none, none, none⟩,
               ⟨.jnull, some 0, some 0, none, none, none, none, none, none⟩],
    fibers := [⟨0, some 1, some 0, .jnull, 0, 0⟩,
               ⟨0, some 0, some 1, .jnull, 0, 0⟩] }

/-- Heap for the C3 counterexample: the queue has an empty normal list
(lastUpdate null) and a non-empty captured list holding record 0. -/
def exH3 : HeapModel.Heap :=
  { updates := [⟨0, 0, .val .jnull, none, none, none⟩],
    queues := [⟨.jnull, none, none, some 0, some 0, none, none, none, none⟩],
    fibers := [] }

/-- Heap for the C3 witness: normal list [0] (tail 0), captured list [1]. -/
def exH3b : HeapModel.Heap :=
  { updates := [⟨0, 0, .val .jnull, none, none, none⟩,
                ⟨0, 0, .val .jnull, none, none, none⟩],
    queues := [⟨.jnull, some 0, some 0, some 1, some 1, none, none, none, none⟩],
    fibers := [] }

/-! ### Characterisation of the replay loops -/

theorem maxETfold_cons (i : Nat) (u : Update) (l : List Update) :
    maxETfold i (u :: l) =
      maxETfold (if i < u.expirationTime then u.expirationTime else i) l := rfl

theorem applyList_cons (props : JVal) (st : JVal × Nat × Bool) (u : Update)
    (l : List Update) :
    applyList props st (u :: l) = applyList props (applyOne props st u) l := rfl

theorem applyList_nil (props : JVal) (st : JVal × Nat × Bool) :
    applyList props st [] = st := rfl

/-- The state component of getStateFromUpdate does not depend on the
incoming effect tag. -/
theorem getStateFromUpdate_fst (et : Nat) (u : Update) (s props : JVal) :
    (getStateFromUpdate et u s props).1 = (getStateFromUpdate 0 u s props).1 := by
  obtain ⟨e, t, p, cb⟩ := u
  rcases t with _ | _ | _ | _ | t <;> rfl

theorem applyList_fst (props : JVal) (l : List Update) :
    ∀ (st : JVal × Nat × Bool), (applyList props st l).1 = stateFold props st.1 l := by
  induction l with
  | nil => intro st; rfl
  | cons u rest ih =>
    intro st
    rw [applyList_cons, ih]
    show stateFold props (getStateFromUpdate st.2.1 u st.1 props).1 rest = _
    rw [getStateFromUpdate_fst]
    rfl

/-- Normal-list walk, once a record has already been skipped: the head
pointer and frozen base state are unchanged; eligible records are
applied, skipped records feed the running maximum. -/
theorem processListNormal_some (props : JVal) (d : Nat) :
    ∀ (l : List Update) (s : LoopState) (nf : List Update),
      s.newFirstUpdate = some nf →
      processListNormal props d l s =
        { resultState := (applyList props (s.resultState, s.effectTag, s.hasForce)
            (l.filter (eligB d))).1,
          newBaseState := s.newBaseState,
          newFirstUpdate := some nf,
          newExpirationTime := maxETfold s.newExpirationTime (l.filter (skipB d)),
          effectTag := (applyList props (s.resultState, s.effectTag, s.hasForce)
            (l.filter (eligB d))).2.1,
          hasForce := (applyList props (s.resultState, s.effectTag, s.hasForce)
            (l.filter (eligB d))).2.2,
          effects := s.effects ++ (l.filter (eligB d)).filter hasCb } := by
  intro l
  induction l with
  | nil =>
    intro s nf h
    cases s
    simp only [] at h
    subst h
    simp [processListNormal, applyList, maxETfold]
  | cons u rest ih =>
    intro s nf h
    obtain ⟨res, nbs, nfu, net, tag, force, effs⟩ := s
    simp only [] at h
    subst h
    by_cases hs : u.expirationTime < d
    · simp only [processListNormal, if_pos hs]
      rw [ih _ nf rfl]
      simp [eligB, skipB, hs, maxETfold_cons]
    · simp only [processListNormal, if_neg hs]
      rcases hc : u.callback with _ | cb
      · rw [ih _ nf rfl]
        simp [eligB, skipB, hs, applyList_cons, applyOne, hc, hasCb]
      · rw [ih _ nf rfl]
        simp [eligB, skipB, hs, applyList_cons, applyOne, hc, hasCb,
          List.append_assoc]

/-- Normal-list walk from a state in which nothing has been skipped yet:
the eligible prefix up to the first skipped record is folded into the
frozen base state, the suffix starting at the first skipped record
becomes the new head, and overall the eligible records are applied in
order. -/
theorem processListNormal_none (props : JVal) (d : Nat) :
    ∀ (l : List Update) (s : LoopState),
      s.newFirstUpdate = none →
      processListNormal props d l s =
        { resultState := (applyList props (s.resultState, s.effectTag, s.hasForce)
            (l.filter (eligB d))).1,
          newBaseState :=
            if (l.dropWhile (eligB d)).isEmpty then s.newBaseState
            else (applyList props (s.resultState, s.effectTag, s.hasForce)
              (l.takeWhile (eligB d))).1,
          newFirstUpdate :=
            if (l.dropWhile (eligB d)).isEmpty then none
            else some (l.dropWhile (eligB d)),
          newExpirationTime := maxETfold s.newExpirationTime (l.filter (skipB d)),
          effectTag := (applyList props (s.resultState, s.effectTag, s.hasForce)
            (l.filter (eligB d))).2.1,
          hasForce := (applyList props (s.resultState, s.effectTag, s.hasForce)
            (l.filter (eligB d))).2.2,
          effects := s.effects ++ (l.filter (eligB d)).filter hasCb } := by
  intro l
  induction l with
  | nil =>
    intro s h
    cases s
    simp only [] at h
    subst h
    simp [processListNormal, applyList, maxETfold]
  | cons u rest ih =>
    intro s h
    obtain ⟨res, nbs, nfu, net, tag, force, effs⟩ := s
    simp only [] at h
    subst h
    by_cases hs : u.expirationTime < d
    · simp only [processListNormal, if_pos hs]
      rw [processListNormal_some props d rest _ (u :: rest) rfl]
      simp [eligB, skipB, hs, maxETfold_cons, List.dropWhile_cons,
        List.takeWhile_cons, applyList]
    · simp only [processListNormal, if_neg hs]
      rcases hc : u.callback with _ | cb
      · rw [ih _ rfl]
        simp [eligB, skipB, hs, applyList_cons, applyOne, hc, hasCb,
          List.dropWhile_cons, List.takeWhile_cons]
      · rw [ih _ rfl]
        simp [eligB, skipB, hs, applyList_cons, applyOne, hc, hasCb,
          List.dropWhile_cons, List.takeWhile_cons, List.append_assoc]

/-- Captured-list walk, once a captured record has already been skipped. -/
theorem processListCaptured_some (props : JVal) (d : Nat) (flag : Bool) :
    ∀ (l : List Update) (s : CapLoopState) (nf : List Update),
      s.newFirstCapturedUpdate = some nf →
      processListCaptured props d flag l s =
        { resultState := (applyList props (s.resultState, s.effectTag, s.hasForce)
            (l.filter (eligB d))).1,
          newBaseState := s.newBaseState,
          newFirstCapturedUpdate := some nf,
          newExpirationTime := maxETfold s.newExpirationTime (l.filter (skipB d)),
          effectTag := (applyList props (s.resultState, s.effectTag, s.hasForce)
            (l.filter (eligB d))).2.1,
          hasForce := (applyList props (s.resultState, s.effectTag, s.hasForce)
            (l.filter (eligB d))).2.2,
          capturedEffects := s.capturedEffects ++ (l.filter (eligB d)).filter hasCb } := by
  intro l
  induction l with
  | nil =>
    intro s nf h
    cases s
    simp only [] at h
    subst h
    simp [processListCaptured, applyList, maxETfold]
  | cons u rest ih =>
    intro s nf h
    obtain ⟨res, nbs, nfu, net, tag, force, effs⟩ := s
    simp only [] at h
    subst h
    by_cases hs : u.expirationTime < d
    · simp only [processListCaptured, if_pos hs]
      rw [ih _ nf rfl]
      simp [eligB, skipB, hs, maxETfold_cons]
    · simp only [processListCaptured, if_neg hs]
      rcases hc : u.callback with _ | cb
      · rw [ih _ nf rfl]
        simp [eligB, skipB, hs, applyList_cons, applyOne, hc, hasCb]
      · rw [ih _ nf rfl]
        simp [eligB, skipB, hs, applyList_cons, applyOne, hc, hasCb,
          List.append_assoc]

/-- Captured-list walk from a state in which no captured record has been
skipped yet.  The flag records whether the normal walk skipped nothing;
only in that case does the first captured skip freeze newBaseState. -/
theorem processListCaptured_none (props : JVal) (d : Nat) (flag : Bool) :
    ∀ (l : List Update) (s : CapLoopState),
      s.newFirstCapturedUpdate = none →
      processListCaptured props d flag l s =
        { resultState := (applyList props (s.resultState, s.effectTag, s.hasForce)
            (l.filter (eligB d))).1,
          newBaseState :=
            if (l.dropWhile (eligB d)).isEmpty then s.newBaseState
            else if flag then
              (applyList props (s.resultState, s.effectTag, s.hasForce)
                (l.takeWhile (eligB d))).1
            else s.newBaseState,
          newFirstCapturedUpdate :=
            if (l.dropWhile (eligB d)).isEmpty then none
            else some (l.dropWhile (eligB d)),
          newExpirationTime := maxETfold s.newExpirationTime (l.filter (skipB d)),
          effectTag := (applyList props (s.resultState, s.effectTag, s.hasForce)
            (l.filter (eligB d))).2.1,
          hasForce := (applyList props (s.resultState, s.effectTag, s.hasForce)
            (l.filter (eligB d))).2.2,
          capturedEffects := s.capturedEffects ++ (l.filter (eligB d)).filter hasCb } := by
  intro l
  induction l with
  | nil =>
    intro s h
    cases s
    simp only [] at h
    subst h
    simp [processListCaptured, applyList, maxETfold]
  | cons u rest ih =>
    intro s h
    obtain ⟨res, nbs, nfu, net, tag, force, effs⟩ := s
    simp only [] at h
    subst h
    by_cases hs : u.expirationTime < d
    · simp only [processListCaptured, if_pos hs]
      rw [processListCaptured_some props d flag rest _ (u :: rest) rfl]
      rcases flag with _ | _ <;>
        simp [eligB, skipB, hs, maxETfold_cons, List.dropWhile_cons,
          List.takeWhile_cons, applyList]
    · simp only [processListCaptured, if_neg hs]
      rcases hc : u.callback with _ | cb
      · rw [ih _ rfl]
        simp [eligB, skipB, hs, applyList_cons, applyOne, hc, hasCb,
          List.dropWhile_cons, List.takeWhile_cons]
      · rw [ih _ rfl]
        simp [eligB, skipB, hs, applyList_cons, applyOne, hc, hasCb,
          List.dropWhile_cons, List.takeWhile_cons, List.append_assoc]

/-- Full characterisation of one processUpdateQueue pass in terms of
filter / takeWhile / dropWhile of the two lists at the render deadline. -/
theorem processUpdateQueue_eq (f : Fiber) (q : UpdateQueue) (props : JVal)
    (d : Nat) :
    processUpdateQueue f q props d =
      (let st0 := (q.baseState, f.effectTag, false)
       let st1 := applyList props st0 (q.firstUpdate.filter (eligB d))
       let st2 := applyList props st1 (q.firstCapturedUpdate.filter (eligB d))
       let dropN := q.firstUpdate.dropWhile (eligB d)
       let dropC := q.firstCapturedUpdate.dropWhile (eligB d)
       ({ effectTag := if dropC.isEmpty then st2.2.1 else Nat.lor st2.2.1 Callback,
          expirationTime := maxETfold
            (maxETfold NoWork (q.firstUpdate.filter (skipB d)))
            (q.firstCapturedUpdate.filter (skipB d)),
          memoizedState := st2.1 },
        { baseState :=
            if dropN.isEmpty then
              (if dropC.isEmpty then st2.1
               else (applyList props st1
                 (q.firstCapturedUpdate.takeWhile (eligB d))).1)
            else (applyList props st0 (q.firstUpdate.takeWhile (eligB d))).1,
          firstUpdate := dropN,
          lastUpdate := if dropN.isEmpty then none else q.lastUpdate,
          firstCapturedUpdate := dropC,
          lastCapturedUpdate := if dropC.isEmpty then none else q.lastCapturedUpdate,
          firstEffect := q.firstEffect ++ (q.firstUpdate.filter (eligB d)).filter hasCb,
          firstCapturedEffect := q.firstCapturedEffect ++
            (q.firstCapturedUpdate.filter (eligB d)).filter hasCb },
        st2.2.2)) := by
  simp only [processUpdateQueue]
  rw [processListNormal_none props d q.firstUpdate _ rfl]
  rw [processListCaptured_none props d _ q.firstCapturedUpdate _ rfl]
  by_cases hN : (q.firstUpdate.dropWhile (eligB d)).isEmpty
  · have hN' : q.firstUpdate.dropWhile (eligB d) = [] :=
      List.isEmpty_iff.mp hN
    by_cases hC : (q.firstCapturedUpdate.dropWhile (eligB d)).isEmpty
    · have hC' : q.firstCapturedUpdate.dropWhile (eligB d) = [] :=
        List.isEmpty_iff.mp hC
      simp [hN, hC, hN', hC']
    · simp [hN, hC]
      intro x hx
      exact List.dropWhile_eq_nil_iff.mp hN' x hx
  · by_cases hC : (q.firstCapturedUpdate.dropWhile (eligB d)).isEmpty
    · have hC' : q.firstCapturedUpdate.dropWhile (eligB d) = [] :=
        List.isEmpty_iff.mp hC
      simp [hN, hC, hC']
    · simp [hN, hC]

/-! ### Convergence of repeated passes (normal list) -/

theorem stateFold_append (props : JVal) (s : JVal) (l1 l2 : List Update) :
    stateFold props s (l1 ++ l2) = stateFold props (stateFold props s l1) l2 := by
  simp [stateFold, List.foldl_append]

theorem filter_eligB_of_dropWhile_nil {d : Nat} {l : List Update}
    (h : l.dropWhile (eligB d) = []) : l.filter (eligB d) = l :=
  List.filter_eq_self.mpr (List.dropWhile_eq_nil_iff.mp h)

/-- A pass over a queue with an empty captured list preserves the total
replay value (base state folded through the whole remaining list),
leaves the captured list empty, and keeps the remaining records a subset
of the original ones. -/
theorem processUpdateQueue_preserves_total (f : Fiber) (q : UpdateQueue)
    (props : JVal) (d : Nat) (hcap : q.firstCapturedUpdate = []) :
    stateFold props (processUpdateQueue f q props d).2.1.baseState
        (processUpdateQueue f q props d).2.1.firstUpdate
      = stateFold props q.baseState q.firstUpdate
    ∧ (processUpdateQueue f q props d).2.1.firstCapturedUpdate = []
    ∧ ∀ u ∈ (processUpdateQueue f q props d).2.1.firstUpdate, u ∈ q.firstUpdate := by
  rw [processUpdateQueue_eq]
  by_cases hN : (q.firstUpdate.dropWhile (eligB d)).isEmpty
  · have hN' : q.firstUpdate.dropWhile (eligB d) = [] := List.isEmpty_iff.mp hN
    refine ⟨?_, by simp [hcap], by simp [hN']⟩
    simp only [hcap, hN]
    simp [hN', stateFold, applyList_fst,
      filter_eligB_of_dropWhile_nil hN']
  · refine ⟨?_, by simp [hcap], ?_⟩
    · simp only [hcap, hN, List.dropWhile_nil, List.filter_nil, applyList_nil,
        List.isEmpty_nil, if_false, if_true, Bool.false_eq_true]
      rw [applyList_fst]
      show stateFold props (stateFold props _ _) _ = _
      rw [← stateFold_append, List.takeWhile_append_dropWhile]
    · intro u hu
      simp only [hN] at hu
      exact (List.dropWhile_sublist (eligB d)).subset (by simpa using hu)

/-- A pass at a deadline for which every remaining record is eligible
resolves the whole (captured-empty) queue: the memoized state is the
base state folded through the entire list. -/
theorem processUpdateQueue_memo_all (f : Fiber) (q : UpdateQueue)
    (props : JVal) (d : Nat) (hcap : q.firstCapturedUpdate = [])
    (hall : ∀ u ∈ q.firstUpdate, ¬(u.expirationTime < d)) :
    (processUpdateQueue f q props d).1.memoizedState
      = stateFold props q.baseState q.firstUpdate := by
  rw [processUpdateQueue_eq]
  have hfilter : q.firstUpdate.filter (eligB d) = q.firstUpdate :=
    List.filter_eq_self.mpr (fun u hu => by simp [eligB, hall u hu])
  simp [hcap, hfilter, applyList_fst, stateFold]

theorem runPasses_singleton (props : JVal) (d : Nat) (f : Fiber)
    (q : UpdateQueue) :
    runPasses props [d] f q = processUpdateQueue f q props d := by
  simp [runPasses]

theorem runPasses_cons (props : JVal) (d : Nat) (rest : List Nat)
    (hne : rest ≠ []) (f : Fiber) (q : UpdateQueue) :
    runPasses props (d :: rest) f q =
      runPasses props rest (processUpdateQueue f q props d).1
        (processUpdateQueue f q props d).2.1 := by
  cases rest with
  | nil => exact absurd rfl hne
  | cons d2 r2 => simp [runPasses]

/-- Any chain of passes over a captured-empty queue that ends with a
pass at which every original record is eligible resolves to the base
state folded through the whole list. -/
theorem runPasses_memo (props : JVal) (dlow : Nat) :
    ∀ (passes : List Nat) (f : Fiber) (q : UpdateQueue),
      q.firstCapturedUpdate = [] →
      (∀ u ∈ q.firstUpdate, ¬(u.expirationTime < dlow)) →
      (runPasses props (passes ++ [dlow]) f q).1.memoizedState
        = stateFold props q.baseState q.firstUpdate := by
  intro passes
  induction passes with
  | nil =>
    intro f q hcap hall
    rw [List.nil_append, runPasses_singleton]
    exact processUpdateQueue_memo_all f q props dlow hcap hall
  | cons d rest ih =>
    intro f q hcap hall
    rw [List.cons_append, runPasses_cons props d _ (by simp) f q]
    obtain ⟨hphi, hcap2, hsub⟩ :=
      processUpdateQueue_preserves_total f q props d hcap
    rw [ih _ _ hcap2 (fun u hu => hall u (hsub u hu))]
    exact hphi

/-- Claim C1: for a queue of enqueued records (enqueueUpdate populates
only the normal list, so the captured list is empty) at mixed priority
deadlines, one processUpdateQueue pass at a deadline at which every
record is eligible produces the same final result state as any chain of
passes (in particular one pass per distinct priority level from highest
urgency to lowest) followed by a final pass at that deadline, each pass
starting from the base state and remaining head left by the previous
pass. -/
theorem claim_C1_convergence (props : JVal) (f : Fiber) (q : UpdateQueue)
    (passes : List Nat) (dlow : Nat)
    (hcap : q.firstCapturedUpdate = [])
    (hall : ∀ u ∈ q.firstUpdate, ¬(u.expirationTime < dlow)) :
    (runPasses props (passes ++ [dlow]) f q).1.memoizedState
      = (processUpdateQueue f q props dlow).1.memoizedState := by
  rw [runPasses_memo props dlow passes f q hcap hall,
      processUpdateQueue_memo_all f q props dlow hcap hall]

/-- Witness for claim C1 at the queue A2 B1 C2 D1 of the specification
scenario: the chain of a pass at deadline 2 followed by a pass at
deadline 1 agrees with the single pass at deadline 1. -/
theorem claim_C1_convergence_witness :
    (runPasses .jnull ([2] ++ [1]) exF exQ1).1.memoizedState
      = (processUpdateQueue exF exQ1 .jnull 1).1.memoizedState :=
  claim_C1_convergence .jnull exF exQ1 [2] 1 rfl (by
    intro u hu
    simp [exQ1, List.mem_cons] at hu
    rcases hu with rfl | rfl | rfl | rfl <;> decide)

theorem maxETfold_append (i : Nat) (l1 l2 : List Update) :
    maxETfold i (l1 ++ l2) = maxETfold (maxETfold i l1) l2 := by
  simp [maxETfold, List.foldl_append]

/-- Claim C8: within a single processUpdateQueue pass the final result
state is the base state folded first through the eligible normal-list
records and then through the eligible captured-list records, so every
applied captured record is applied after every applied normal record,
into the same result state; the effect lists extend in the same order
and the remaining-priority aggregate folds the skipped records of both
lists, regardless of the relative deadlines of the two lists. -/
theorem claim_C8_captured_after_normal (f : Fiber) (q : UpdateQueue)
    (props : JVal) (d : Nat) :
    (processUpdateQueue f q props d).1.memoizedState
      = stateFold props q.baseState
          (q.firstUpdate.filter (eligB d) ++ q.firstCapturedUpdate.filter (eligB d))
    ∧ (processUpdateQueue f q props d).2.1.firstEffect
      = q.firstEffect ++ (q.firstUpdate.filter (eligB d)).filter hasCb
    ∧ (processUpdateQueue f q props d).2.1.firstCapturedEffect
      = q.firstCapturedEffect ++ (q.firstCapturedUpdate.filter (eligB d)).filter hasCb
    ∧ (processUpdateQueue f q props d).1.expirationTime
      = maxETfold NoWork ((q.firstUpdate ++ q.firstCapturedUpdate).filter (skipB d)) := by
  rw [processUpdateQueue_eq]
  refine ⟨?_, rfl, rfl, ?_⟩
  · show (applyList props (applyList props _ _) _).1 = _
    rw [applyList_fst, applyList_fst, stateFold_append]
  · show maxETfold (maxETfold NoWork _) _ = _
    rw [List.filter_append, maxETfold_append]

/-- Claim C9: a pass over a fully resolved queue (both heads empty) is a
no-op at any deadline: the result state is the frozen base state and the
base state and both head pointers are unchanged. -/
theorem claim_C9_idempotent (f : Fiber) (q : UpdateQueue) (props : JVal)
    (d : Nat) (h1 : q.firstUpdate = []) (h2 : q.firstCapturedUpdate = []) :
    (processUpdateQueue f q props d).1.memoizedState = q.baseState
    ∧ (processUpdateQueue f q props d).2.1.baseState = q.baseState
    ∧ (processUpdateQueue f q props d).2.1.firstUpdate = []
    ∧ (processUpdateQueue f q props d).2.1.firstCapturedUpdate = [] := by
  rw [processUpdateQueue_eq]
  simp [h1, h2, applyList]

/-- Witness for claim C9: replaying an already resolved queue at
deadline 7 returns its base state and leaves it resolved. -/
theorem claim_C9_idempotent_witness :
    (processUpdateQueue exF
        ⟨.jstr "frozen", [], none, [], none, [], []⟩ .jnull 7).1.memoizedState
      = (⟨.jstr "frozen", [], none, [], none, [], []⟩ : UpdateQueue).baseState :=
  (claim_C9_idempotent exF ⟨.jstr "frozen", [], none, [], none, [], []⟩
    .jnull 7 rfl rfl).1

theorem dropWhile_eligB_nil_iff {d : Nat} {l : List Update} :
    l.dropWhile (eligB d) = [] ↔ l.filter (skipB d) = [] := by
  rw [List.dropWhile_eq_nil_iff, List.filter_eq_nil_iff]
  constructor <;> intro h u hu <;> have := h u hu <;>
    simp [eligB, skipB] at * <;> omega

/-- Claim C2: after any processUpdateQueue pass, if some record (in
either list) was skipped then the new base state is the result computed
immediately before the first skipped record (the eligible normal prefix
when the first skip is a normal record; the whole normal list followed
by the eligible captured prefix when only a captured record was
skipped), each list head becomes the suffix starting at its first
skipped record, and the aggregate written back to the fiber is the
running maximum (most urgent, larger value meaning more urgent) of the
skipped deadlines of both lists; if nothing was skipped, the new base
state collapses to the final result state, both heads become empty and
both tail pointers are reset to empty. -/
theorem claim_C2_post_state (f : Fiber) (q : UpdateQueue) (props : JVal)
    (d : Nat) :
    ((((q.firstUpdate ++ q.firstCapturedUpdate).filter (skipB d)).isEmpty = false →
       (processUpdateQueue f q props d).2.1.baseState
         = stateFold props q.baseState
             (if (q.firstUpdate.dropWhile (eligB d)).isEmpty then
                q.firstUpdate ++ q.firstCapturedUpdate.takeWhile (eligB d)
              else q.firstUpdate.takeWhile (eligB d))
       ∧ (processUpdateQueue f q props d).2.1.firstUpdate
         = q.firstUpdate.dropWhile (eligB d)
       ∧ (processUpdateQueue f q props d).2.1.firstCapturedUpdate
         = q.firstCapturedUpdate.dropWhile (eligB d)
       ∧ (processUpdateQueue f q props d).1.expirationTime
         = maxETfold NoWork ((q.firstUpdate ++ q.firstCapturedUpdate).filter (skipB d)))
    ∧ ((((q.firstUpdate ++ q.firstCapturedUpdate).filter (skipB d)).isEmpty = true →
       (processUpdateQueue f q props d).2.1.baseState
         = (processUpdateQueue f q props d).1.memoizedState
       ∧ (processUpdateQueue f q props d).2.1.firstUpdate = []
       ∧ (processUpdateQueue f q props d).2.1.firstCapturedUpdate = []
       ∧ (processUpdateQueue f q props d).2.1.lastUpdate = none
       ∧ (processUpdateQueue f q props d).2.1.lastCapturedUpdate = none))) := by
  constructor
  · intro hsk
    rw [processUpdateQueue_eq]
    by_cases hN : (q.firstUpdate.dropWhile (eligB d)).isEmpty
    · have hN' : q.firstUpdate.dropWhile (eligB d) = [] := List.isEmpty_iff.mp hN
      by_cases hC : (q.firstCapturedUpdate.dropWhile (eligB d)).isEmpty
      · exfalso
        have hC' : q.firstCapturedUpdate.dropWhile (eligB d) = [] :=
          List.isEmpty_iff.mp hC
        rw [List.isEmpty_eq_false] at hsk
        apply hsk
        rw [List.filter_append, dropWhile_eligB_nil_iff.mp hN',
          dropWhile_eligB_nil_iff.mp hC', List.append_nil]
      · refine ⟨?_, ?_, ?_, ?_⟩
        · simp only [hN, hC, if_true, if_false, hN', List.isEmpty_nil,
            Bool.false_eq_true]
          rw [applyList_fst, applyList_fst]
          show stateFold props (stateFold props _ _) _ = _
          rw [← stateFold_append, filter_eligB_of_dropWhile_nil hN']
        · simp [hN', hN, hC]
        · simp [hN, hC]
        · simp [List.filter_append, maxETfold_append]
    · refine ⟨?_, ?_, ?_, ?_⟩
      · simp only [hN, if_false, if_true, Bool.false_eq_true,
          Bool.not_eq_true, applyList_fst] at *
      · rfl
      · rfl
      · simp [List.filter_append, maxETfold_append]
  · intro hsk
    rw [processUpdateQueue_eq]
    rw [List.isEmpty_iff, List.filter_append, List.append_eq_nil] at hsk
    have hN : q.firstUpdate.dropWhile (eligB d) = [] :=
      dropWhile_eligB_nil_iff.mpr hsk.1
    have hC : q.firstCapturedUpdate.dropWhile (eligB d) = [] :=
      dropWhile_eligB_nil_iff.mpr hsk.2
    simp [hN, hC]

/-- Witness for claim C2: at deadline 3 the queue [exU1 (deadline 5),
exU2 (deadline 1)] skips exU2, so the head becomes the suffix at exU2
and the aggregate folds the skipped deadline; and a queue that skips
nothing empties both heads and resets the normal tail pointer. -/
theorem claim_C2_post_state_witness :
    ((processUpdateQueue exF exQ2 .jnull 3).2.1.firstUpdate
        = exQ2.firstUpdate.dropWhile (eligB 3)
      ∧ (processUpdateQueue exF exQ2 .jnull 3).1.expirationTime
        = maxETfold NoWork
            ((exQ2.firstUpdate ++ exQ2.firstCapturedUpdate).filter (skipB 3)))
    ∧ ((processUpdateQueue exF (singletonQueue (.jobj []) exU1) .jnull 3).2.1.lastUpdate
        = none
      ∧ (processUpdateQueue exF (singletonQueue (.jobj []) exU1) .jnull 3).2.1.baseState
        = (processUpdateQueue exF (singletonQueue (.jobj []) exU1) .jnull 3).1.memoizedState) :=
  ⟨⟨((claim_C2_post_state exF exQ2 .jnull 3).1 (by decide)).2.1,
    ((claim_C2_post_state exF exQ2 .jnull 3).1 (by decide)).2.2.2⟩,
   ⟨((claim_C2_post_state exF (singletonQueue (.jobj []) exU1) .jnull 3).2
      (by decide)).2.2.2.1,
    ((claim_C2_post_state exF (singletonQueue (.jobj []) exU1) .jnull 3).2
      (by decide)).1⟩⟩

/-- Counterexample to claim C5 as stated.  The claim takes lower numeric
value to mean higher urgency with the no-work sentinel as the maximum of
the order.  In the code the order is the opposite: at target deadline 3
the records with deadlines 1 and 2 are both skipped (kept in the queue)
even though they are numerically below 3, the remaining aggregate
written back is 2 - the numerically larger of the skipped deadlines,
which under the claimed convention would be the least urgent one - and
NoWork = 0 is below every positive deadline, so it is the minimum of the
order, not the maximum. -/
theorem claim_C5_counterexample :
    NoWork < 1
    ∧ (processUpdateQueue exF exQ5 .jnull 3).1.expirationTime = 2
    ∧ (processUpdateQueue exF exQ5 .jnull 3).2.1.firstUpdate.length = 2 :=
  ⟨by decide, by decide, by decide⟩

/-- Claim C5 amended: priority deadlines are totally ordered with HIGHER
numeric value meaning higher urgency, the NoWork sentinel is the MINIMUM
of the order, and during replay a record is skipped exactly when its
deadline is numerically below (less urgent than) the target deadline of
the pass. -/
theorem claim_C5_amended (f : Fiber) (b props : JVal) (u : Update)
    (d t : Nat) :
    ((processUpdateQueue f (singletonQueue b u) props d).2.1.firstUpdate = [u]
       ↔ u.expirationTime < d)
    ∧ (u.expirationTime < d →
        (processUpdateQueue f (singletonQueue b u) props d).1.expirationTime
          = u.expirationTime
        ∧ (processUpdateQueue f (singletonQueue b u) props d).2.1.baseState = b)
    ∧ (¬ u.expirationTime < d →
        (processUpdateQueue f (singletonQueue b u) props d).2.1.firstUpdate = []
        ∧ (processUpdateQueue f (singletonQueue b u) props d).1.memoizedState
            = (getStateFromUpdate f.effectTag u b props).1)
    ∧ NoWork ≤ t := by
  rw [processUpdateQueue_eq]
  by_cases hs : u.expirationTime < d
  · refine ⟨?_, fun _ => ⟨?_, ?_⟩, fun hn => absurd hs hn, Nat.zero_le t⟩
    · simp [singletonQueue, eligB, skipB, hs]
    · simp [singletonQueue, eligB, skipB, hs, maxETfold, NoWork]
      omega
    · simp [singletonQueue, eligB, skipB, hs, applyList]
  · refine ⟨?_, fun hy => absurd hy hs, fun _ => ⟨?_, ?_⟩, Nat.zero_le t⟩
    · simp [singletonQueue, eligB, skipB, hs]
    · simp [singletonQueue, eligB, skipB, hs]
    · simp [singletonQueue, eligB, skipB, hs, applyList, applyOne]

/-- Witness for the amended claim C5: at target deadline 3 the record
with deadline 5 is applied (numerically above the target) and the record
with deadline 1 is skipped with its deadline written back. -/
theorem claim_C5_amended_witness :
    ((processUpdateQueue exF (singletonQueue .jnull exU1) .jnull 3).2.1.firstUpdate = []
      ∧ (processUpdateQueue exF (singletonQueue .jnull exU1) .jnull 3).1.memoizedState
          = (getStateFromUpdate exF.effectTag exU1 .jnull .jnull).1)
    ∧ ((processUpdateQueue exF (singletonQueue .jnull exU2) .jnull 3).1.expirationTime
          = exU2.expirationTime
      ∧ (processUpdateQueue exF (singletonQueue .jnull exU2) .jnull 3).2.1.baseState
          = .jnull) :=
  ⟨(claim_C5_amended exF .jnull .jnull exU1 3 0).2.2.1 (by decide),
   (claim_C5_amended exF .jnull .jnull exU2 3 0).2.1 (by decide)⟩

theorem lookup_append (k : Nat) (l1 l2 : List (Nat × Nat)) :
    List.lookup k (l1 ++ l2) = (List.lookup k l1).or (List.lookup k l2) := by
  induction l1 with
  | nil => simp
  | cons a rest ih =>
    obtain ⟨k1, v1⟩ := a
    cases hbeq : (k == k1) <;> simp [List.lookup, hbeq, ih]

/-- Claim C7: a MERGE (UpdateState) record whose computed partial state
(the payload value, or the result of calling the payload function on the
previous state and props) is null or undefined leaves the previous state
unchanged; a present partial produces the fresh shallow merge of the
partial over the previous state, in which every key present in the
partial wins and every other key falls back to the previous state; a
REPLACE (ReplaceState) record produces exactly the payload (or the
payload function result), fully overwriting the previous state. -/
theorem claim_C7_merge_replace (et e : Nat) (p : Payload) (cb : Option CbVal)
    (prevState nextProps : JVal) :
    (isNullish (evalPayload p prevState nextProps) = true →
       (getStateFromUpdate et ⟨e, UpdateState, p, cb⟩ prevState nextProps).1
         = prevState)
    ∧ (isNullish (evalPayload p prevState nextProps) = false →
       (getStateFromUpdate et ⟨e, UpdateState, p, cb⟩ prevState nextProps).1
         = objAssign prevState (evalPayload p prevState nextProps)
       ∧ (∀ k, jlookup
           (getStateFromUpdate et ⟨e, UpdateState, p, cb⟩ prevState nextProps).1 k
           = ((jlookup (evalPayload p prevState nextProps) k).or
               (jlookup prevState k))))
    ∧ (getStateFromUpdate et ⟨e, ReplaceState, p, cb⟩ prevState nextProps).1
        = evalPayload p prevState nextProps := by
  refine ⟨?_, ?_, by simp [getStateFromUpdate, ReplaceState]⟩
  · intro h
    simp [getStateFromUpdate, UpdateState, updateStateFrom, h]
  · intro h
    refine ⟨by simp [getStateFromUpdate, UpdateState, updateStateFrom, h], ?_⟩
    intro k
    simp [getStateFromUpdate, UpdateState, updateStateFrom, h, objAssign,
      jlookup, fieldsOf, lookup_append]

/-- Witness for claim C7: a null MERGE partial is a no-op, a present
partial shallow-merges with its key winning, REPLACE returns the payload. -/
theorem claim_C7_merge_replace_witness :
    (getStateFromUpdate 0 ⟨0, UpdateState, .val .jnull, none⟩
        (.jobj [(1, 5)]) .jnull).1 = .jobj [(1, 5)]
    ∧ (getStateFromUpdate 0 ⟨0, UpdateState, .val (.jobj [(1, 10)]), none⟩
        (.jobj [(1, 5), (2, 6)]) .jnull).1
        = objAssign (.jobj [(1, 5), (2, 6)])
            (evalPayload (.val (.jobj [(1, 10)])) (.jobj [(1, 5), (2, 6)]) .jnull)
    ∧ (getStateFromUpdate 0 ⟨0, ReplaceState, .val (.jstr "x"), none⟩
        (.jobj []) .jnull).1
        = evalPayload (.val (.jstr "x")) (.jobj []) .jnull :=
  ⟨(claim_C7_merge_replace 0 0 (.val .jnull) none (.jobj [(1, 5)]) .jnull).1
      (by decide),
   ((claim_C7_merge_replace 0 0 (.val (.jobj [(1, 10)])) none
      (.jobj [(1, 5), (2, 6)]) .jnull).2.1 (by decide)).1,
   (claim_C7_merge_replace 0 0 (.val (.jstr "x")) none (.jobj []) .jnull).2.2⟩

theorem commitUpdateEffects_ok :
    ∀ (l : List Update), (∀ e ∈ l, okCb e = true) →
      commitUpdateEffects l = .ok (l.filterMap cbId, l.map clearCb) := by
  intro l
  induction l with
  | nil => intro _; rfl
  | cons e rest ih =>
    intro h
    have he := h e (by simp)
    have hr : ∀ x ∈ rest, okCb x = true := fun x hx => h x (by simp [hx])
    obtain ⟨ee, tt, pp, cc⟩ := e
    rcases cc with _ | cb
    · simp [commitUpdateEffects, ih hr, cbId, clearCb]
    · cases cb with
      | cfun id =>
        simp [commitUpdateEffects, callCallback, ih hr, cbId, clearCb]
      | cval v => simp [okCb] at he

theorem commitUpdateEffects_cleared (l : List Update) :
    commitUpdateEffects (l.map clearCb) = .ok ([], l.map clearCb) := by
  have h : ∀ e ∈ l.map clearCb, okCb e = true := by
    intro e he
    rw [List.mem_map] at he
    obtain ⟨x, _, rfl⟩ := he
    rfl
  rw [commitUpdateEffects_ok _ h]
  have h1 : (l.map clearCb).filterMap cbId = [] := by
    rw [List.filterMap_map]
    have : (cbId ∘ clearCb) = fun _ => none := by
      funext x
      rfl
    rw [this]
    exact List.filterMap_eq_nil_iff.mpr (fun x _ => rfl)
  have h2 : (l.map clearCb).map clearCb = l.map clearCb := by
    rw [List.map_map]
    have : (clearCb ∘ clearCb) = clearCb := by
      funext x
      rfl
    rw [this]
  rw [h1, h2]

theorem commitUpdateEffects_error :
    ∀ (pre : List Update) (e : Update) (post : List Update) (v : JVal),
      (∀ x ∈ pre, okCb x = true) → e.callback = some (.cval v) →
      commitUpdateEffects (pre ++ e :: post)
        = .error "Invalid argument passed as callback. Expected a function." := by
  intro pre
  induction pre with
  | nil =>
    intro e post v _ hc
    simp [commitUpdateEffects, hc, callCallback]
  | cons x rest ih =>
    intro e post v h hc
    have hx := h x (by simp)
    have hr : ∀ y ∈ rest, okCb y = true := fun y hy => h y (by simp [hy])
    obtain ⟨ee, tt, pp, cc⟩ := x
    rcases cc with _ | cb
    · simp [commitUpdateEffects, ih e post v hr hc]
    · cases cb with
      | cfun id =>
        simp [commitUpdateEffects, callCallback, ih e post v hr hc]
      | cval vv => simp [okCb] at hx

/-- Claim C6: at commit every effect-list record with a callback has the
callback invoked exactly once, in original insertion order, with the
slot cleared before the call so that a repeated walk fires nothing; a
non-null non-callable callback raises the fatal invariant error instead
of being skipped; commitUpdateQueue drains the normal effect list and
then the captured effect list and clears both; and a processUpdateQueue
pass only moves applied records with callbacks onto the effect lists in
order, without invoking or clearing anything, so no callback fires on a
pass that is not committed. -/
theorem claim_C6_callback_commit (l : List Update) :
    ((∀ e ∈ l, okCb e = true) →
       commitUpdateEffects l = .ok (l.filterMap cbId, l.map clearCb)
       ∧ commitUpdateEffects (l.map clearCb) = .ok ([], l.map clearCb))
    ∧ (∀ (pre : List Update) (e : Update) (post : List Update) (v : JVal),
        l = pre ++ e :: post → (∀ x ∈ pre, okCb x = true) →
        e.callback = some (.cval v) →
        commitUpdateEffects l
          = .error "Invalid argument passed as callback. Expected a function.")
    ∧ (∀ (q : UpdateQueue), (∀ e ∈ q.firstEffect, okCb e = true) →
        (∀ e ∈ q.firstCapturedEffect, okCb e = true) →
        (commitUpdateQueue q).map (fun r => r.1)
          = .ok (q.firstEffect.filterMap cbId
              ++ q.firstCapturedEffect.filterMap cbId)
        ∧ (commitUpdateQueue q).map
            (fun r => (r.2.firstEffect, r.2.firstCapturedEffect))
          = .ok ([], []))
    ∧ (∀ (f : Fiber) (q : UpdateQueue) (props : JVal) (d : Nat),
        (processUpdateQueue f q props d).2.1.firstEffect
          = q.firstEffect ++ (q.firstUpdate.filter (eligB d)).filter hasCb
        ∧ (processUpdateQueue f q props d).2.1.firstCapturedEffect
          = q.firstCapturedEffect
              ++ (q.firstCapturedUpdate.filter (eligB d)).filter hasCb) := by
  refine ⟨?_, ?_, ?_, ?_⟩
  · intro h
    exact ⟨commitUpdateEffects_ok l h, commitUpdateEffects_cleared l⟩
  · intro pre e post v hl hpre hc
    rw [hl]
    exact commitUpdateEffects_error pre e post v hpre hc
  · intro q h1 h2
    have e1 := commitUpdateEffects_ok q.firstEffect h1
    have e2 := commitUpdateEffects_ok q.firstCapturedEffect h2
    by_cases hce : q.firstCapturedUpdate.isEmpty
    · constructor <;> simp [commitUpdateQueue, hce, e1, e2, Except.map]
    · cases hlu : q.lastUpdate <;>
        constructor <;> simp [commitUpdateQueue, hce, hlu, e1, e2, Except.map]
  · intro f q props d
    rw [processUpdateQueue_eq]
    exact ⟨rfl, rfl⟩

/-- Witness for claim C6: the effect list [exE1 (callback 5), exE2 (no
callback), exE3 (callback 7)] commits with invocation order [5, 7] and
is inert after clearing; a non-callable callback after a callable one is
a fatal error; commitUpdateQueue on a queue with those effect lists
reports the combined order [5, 7] and clears both lists. -/
theorem claim_C6_callback_commit_witness :
    (commitUpdateEffects [exE1, exE2, exE3]
       = .ok ([exE1, exE2, exE3].filterMap cbId, [exE1, exE2, exE3].map clearCb)
     ∧ commitUpdateEffects ([exE1, exE2, exE3].map clearCb)
       = .ok ([], [exE1, exE2, exE3].map clearCb))
    ∧ commitUpdateEffects ([exE1] ++ exEbad :: [])
       = .error "Invalid argument passed as callback. Expected a function."
    ∧ (commitUpdateQueue exQC6).map (fun r => r.1)
       = .ok (exQC6.firstEffect.filterMap cbId
           ++ exQC6.firstCapturedEffect.filterMap cbId)
    ∧ (processUpdateQueue exF exQC6 .jnull 0).2.1.firstEffect
       = exQC6.firstEffect
           ++ (exQC6.firstUpdate.filter (eligB 0)).filter hasCb :=
  ⟨(claim_C6_callback_commit [exE1, exE2, exE3]).1 (by decide),
   (claim_C6_callback_commit ([exE1] ++ exEbad :: [])).2.1 [exE1] exEbad []
     (.jstr "oops") rfl (by decide) rfl,
   ((claim_C6_callback_commit []).2.2.1 exQC6 (by decide) (by decide)).1,
   ((claim_C6_callback_commit []).2.2.2 exF exQC6 .jnull 0).1⟩

/-! ### Heap model: arena access laws and chain lemmas -/

namespace HeapModel

theorem getD_set_ne {α : Type} [Inhabited α] (l : List α) (i j : Nat) (v : α)
    (h : j ≠ i) : (l.set i v).getD j default = l.getD j default := by
  simp [List.getD_eq_getElem?_getD, List.getElem?_set_ne (Ne.symm h)]

theorem getD_set_self {α : Type} [Inhabited α] (l : List α) (i : Nat) (v : α)
    (h : i < l.length) : (l.set i v).getD i default = v := by
  simp [List.getD_eq_getElem?_getD, List.getElem?_set_self, h]

theorem getU_setQ (h : Heap) (i j : Nat) (q : QNode) :
    (h.setQ i q).getU j = h.getU j := rfl

theorem getU_setF (h : Heap) (i j : Nat) (f : FNode) :
    (h.setF i f).getU j = h.getU j := rfl

theorem getQ_setU (h : Heap) (i j : Nat) (u : UNode) :
    (h.setU i u).getQ j = h.getQ j := rfl

theorem getQ_setF (h : Heap) (i j : Nat) (f : FNode) :
    (h.setF i f).getQ j = h.getQ j := rfl

theorem getF_setU (h : Heap) (i j : Nat) (u : UNode) :
    (h.setU i u).getF j = h.getF j := rfl

theorem getF_setQ (h : Heap) (i j : Nat) (q : QNode) :
    (h.setQ i q).getF j = h.getF j := rfl

theorem getQ_setQ_self (h : Heap) (i : Nat) (q : QNode)
    (hlt : i < h.queues.length) : (h.setQ i q).getQ i = q :=
  getD_set_self h.queues i q hlt

theorem getQ_setQ_ne (h : Heap) (i j : Nat) (q : QNode) (hne : j ≠ i) :
    (h.setQ i q).getQ j = h.getQ j :=
  getD_set_ne h.queues i j q hne

theorem getU_setU_self (h : Heap) (i : Nat) (u : UNode)
    (hlt : i < h.updates.length) : (h.setU i u).getU i = u :=
  getD_set_self h.updates i u hlt

theorem getU_setU_ne (h : Heap) (i j : Nat) (u : UNode) (hne : j ≠ i) :
    (h.setU i u).getU j = h.getU j :=
  getD_set_ne h.updates i j u hne

theorem getF_setF_self (h : Heap) (i : Nat) (f : FNode)
    (hlt : i < h.fibers.length) : (h.setF i f).getF i = f :=
  getD_set_self h.fibers i f hlt

theorem getF_setF_ne (h : Heap) (i j : Nat) (f : FNode) (hne : j ≠ i) :
    (h.setF i f).getF j = h.getF j :=
  getD_set_ne h.fibers i j f hne

theorem getQ_allocQ_old (h : Heap) (q : QNode) (i : Nat)
    (hlt : i < h.queues.length) : (allocQ h q).1.getQ i = h.getQ i :=
  List.getD_append h.queues [q] default i hlt

theorem getQ_allocQ_new (h : Heap) (q : QNode) :
    (allocQ h q).1.getQ (allocQ h q).2 = q := by
  show (h.queues ++ [q]).getD h.queues.length default = q
  rw [List.getD_append_right h.queues [q] default h.queues.length (le_refl _)]
  simp

theorem getU_allocQ (h : Heap) (q : QNode) (j : Nat) :
    (allocQ h q).1.getU j = h.getU j := rfl

theorem getF_allocQ (h : Heap) (q : QNode) (j : Nat) :
    (allocQ h q).1.getF j = h.getF j := rfl

theorem updates_allocQ (h : Heap) (q : QNode) :
    (allocQ h q).1.updates = h.updates := rfl

/-- A chain is determined by the updates arena alone. -/
theorem isChain_of_updates_eq {h h2 : Heap} (he : h2.updates = h.updates) :
    ∀ {p : Option Nat} {l : List Nat}, IsChain h p l → IsChain h2 p l := by
  intro p l hc
  induction hc with
  | nil => exact .nil
  | cons i rest hr ih =>
    refine .cons i rest ?_
    have hg : h2.getU i = h.getU i := by
      show h2.updates.getD i default = h.updates.getD i default
      rw [he]
    rw [hg]
    exact ih

theorem isChain_nil_none {h : Heap} {p : Option Nat}
    (hc : IsChain h p []) : p = none := by
  cases hc
  rfl

theorem isChain_cons_head {h : Heap} {x : Option Nat} {j : Nat} {r : List Nat}
    (hc : IsChain h x (j :: r)) : x = some j := by
  cases hc
  rfl

/-- The last node of a chain has a null next link. -/
theorem isChain_last_next {h : Heap} :
    ∀ {l : List Nat} {p : Option Nat} {t : Nat},
      IsChain h p l → l.getLast? = some t → (h.getU t).next = none := by
  intro l
  induction l with
  | nil => intro p t _ hl; simp at hl
  | cons i rest ih =>
    intro p t hc hl
    cases hc with
    | cons _ _ hr =>
      cases rest with
      | nil =>
        simp at hl
        subst hl
        exact isChain_nil_none hr
      | cons j r2 =>
        rw [List.getLast?_cons_cons] at hl
        exact ih hr hl

/-- Rewriting a node outside a chain leaves the chain intact. -/
theorem isChain_setU_not_mem {h : Heap} (t : Nat) (v : UNode) :
    ∀ {p : Option Nat} {l : List Nat}, IsChain h p l → t ∉ l →
      IsChain (h.setU t v) p l := by
  intro p l hc
  induction hc with
  | nil => intro _; exact .nil
  | cons i rest hr ih =>
    intro hmem
    have hit : i ≠ t := fun he => hmem (he ▸ List.mem_cons_self i rest)
    refine .cons i rest ?_
    rw [getU_setU_ne h t i v hit]
    exact ih (fun hm => hmem (List.mem_cons_of_mem _ hm))

/-- Linking the last node of one chain to the head of a second, disjoint
chain concatenates the chains. -/
theorem isChain_append {h : Heap} (t fc : Nat) (l2 : List Nat)
    (hl2 : IsChain h (some fc) l2) (htl2 : t ∉ l2)
    (hb : t < h.updates.length) :
    ∀ (l1 : List Nat) (p : Option Nat), IsChain h p l1 →
      l1.getLast? = some t →
      IsChain (h.setU t { h.getU t with next := some fc }) p (l1 ++ l2) := by
  intro l1
  induction l1 with
  | nil => intro p _ hl; simp at hl
  | cons i rest ih =>
    intro p hc hl
    have hp : p = some i := isChain_cons_head hc
    subst hp
    cases hc with
    | cons _ _ hr =>
      cases rest with
      | nil =>
        have hit : i = t := by simpa using hl
        subst hit
        refine .cons i l2 ?_
        rw [getU_setU_self h i _ hb]
        exact isChain_setU_not_mem i _ hl2 htl2
      | cons j r2 =>
        rw [List.getLast?_cons_cons] at hl
        have hin : (h.getU i).next = some j := isChain_cons_head hr
        have hit : i ≠ t := by
          intro he
          have hnone : (h.getU t).next = none := isChain_last_next hr hl
          rw [he, hnone] at hin
          exact absurd hin (by simp)
        refine .cons i _ ?_
        rw [getU_setU_ne h t i _ hit, hin]
        exact ih (some j) (hin ▸ hr) hl

/-- Appending a fresh terminal node to a chain. -/
theorem isChain_snoc {h : Heap} {t ui : Nat} {p : Option Nat} {l : List Nat}
    (hc : IsChain h p l) (hl : l.getLast? = some t) (hui : ui ∉ l)
    (hun : (h.getU ui).next = none) (hb : t < h.updates.length) :
    IsChain (h.setU t { h.getU t with next := some ui }) p (l ++ [ui]) := by
  refine isChain_append t ui [ui] ?_ ?_ hb l p hc hl
  · refine .cons ui [] ?_
    rw [hun]
    exact .nil
  · intro hmem
    simp at hmem
    exact hui (hmem ▸ List.mem_of_mem_getLast? hl)

end HeapModel

/-- Claim C4: enqueueUpdate on a work unit whose alternate exists, where
both instances hold distinct queues whose non-empty lists share the same
physical tail node, allocates nothing (the record was created once by
createUpdate), links that one record physically once, updates both
lastUpdate pointers to it, and leaves it reachable exactly once from
both firstUpdate heads. -/
theorem claim_C4_shared_tail (h : HeapModel.Heap) (fi ai q1 q2 t ui : Nat)
    (l1 l2 : List Nat)
    (halt : (h.getF fi).alternate = some ai)
    (hq1 : (h.getF fi).updateQueue = some q1)
    (hq2 : (h.getF ai).updateQueue = some q2)
    (hne : q1 ≠ q2)
    (hb1 : q1 < h.queues.length) (hb2 : q2 < h.queues.length)
    (hbt : t < h.updates.length)
    (hl1 : (h.getQ q1).lastUpdate = some t)
    (hl2 : (h.getQ q2).lastUpdate = some t)
    (hc1 : HeapModel.IsChain h (h.getQ q1).firstUpdate l1)
    (hc2 : HeapModel.IsChain h (h.getQ q2).firstUpdate l2)
    (hlast1 : l1.getLast? = some t) (hlast2 : l2.getLast? = some t)
    (hui1 : ui ∉ l1) (hui2 : ui ∉ l2)
    (hun : (h.getU ui).next = none) :
    (HeapModel.enqueueUpdate h fi ui).updates.length = h.updates.length
    ∧ (HeapModel.enqueueUpdate h fi ui).queues.length = h.queues.length
    ∧ ((HeapModel.enqueueUpdate h fi ui).getQ q1).lastUpdate = some ui
    ∧ ((HeapModel.enqueueUpdate h fi ui).getQ q2).lastUpdate = some ui
    ∧ HeapModel.IsChain (HeapModel.enqueueUpdate h fi ui)
        ((HeapModel.enqueueUpdate h fi ui).getQ q1).firstUpdate (l1 ++ [ui])
    ∧ HeapModel.IsChain (HeapModel.enqueueUpdate h fi ui)
        ((HeapModel.enqueueUpdate h fi ui).getQ q2).firstUpdate (l2 ++ [ui])
    ∧ (l1 ++ [ui]).count ui = 1
    ∧ (l2 ++ [ui]).count ui = 1 := by
  have hform : HeapModel.enqueueUpdate h fi ui =
      ((h.setU t { h.getU t with next := some ui }).setQ q1
          { h.getQ q1 with lastUpdate := some ui }).setQ q2
        { h.getQ q2 with lastUpdate := some ui } := by
    simp only [HeapModel.enqueueUpdate, halt, hq1, hq2]
    rw [if_neg hne]
    simp only [hl1, hl2]
    rw [if_neg (by simp)]
    simp only [HeapModel.appendUpdateToQueue, hl1]
    congr 1
    rw [HeapModel.getQ_setQ_ne _ _ _ _ (Ne.symm hne), HeapModel.getQ_setU]
  have hb1s : q1 < (h.setU t { h.getU t with next := some ui }).queues.length := hb1
  have hb2s : q2 <
      ((h.setU t { h.getU t with next := some ui }).setQ q1
        { h.getQ q1 with lastUpdate := some ui }).queues.length := by
    show q2 < (h.queues.set q1 _).length
    simpa using hb2
  have hgq1 : (HeapModel.enqueueUpdate h fi ui).getQ q1
      = { h.getQ q1 with lastUpdate := some ui } := by
    rw [hform, HeapModel.getQ_setQ_ne _ _ _ _ hne,
      HeapModel.getQ_setQ_self _ _ _ hb1s]
  have hgq2 : (HeapModel.enqueueUpdate h fi ui).getQ q2
      = { h.getQ q2 with lastUpdate := some ui } := by
    rw [hform, HeapModel.getQ_setQ_self _ _ _ hb2s]
  have hupd : (HeapModel.enqueueUpdate h fi ui).updates
      = h.updates.set t { h.getU t with next := some ui } := by
    rw [hform]
    rfl
  refine ⟨?_, ?_, ?_, ?_, ?_, ?_, ?_, ?_⟩
  · rw [hupd]
    exact List.length_set h.updates t _
  · rw [hform]
    show (((h.queues.set q1 _).set q2 _)).length = _
    simp
  · rw [hgq1]
  · rw [hgq2]
  · rw [hgq1]
    show HeapModel.IsChain _ (h.getQ q1).firstUpdate _
    refine HeapModel.isChain_of_updates_eq ?_
      (HeapModel.isChain_snoc hc1 hlast1 hui1 hun hbt)
    rw [hupd]
    rfl
  · rw [hgq2]
    show HeapModel.IsChain _ (h.getQ q2).firstUpdate _
    refine HeapModel.isChain_of_updates_eq ?_
      (HeapModel.isChain_snoc hc2 hlast2 hui2 hun hbt)
    rw [hupd]
    rfl
  · rw [List.count_append]
    simp [List.count_eq_zero_of_not_mem hui1]
  · rw [List.count_append]
    simp [List.count_eq_zero_of_not_mem hui2]

/-- Witness for claim C4 on the concrete heap exH4: enqueueing record 1
against fiber 0 (whose alternate is fiber 1, the two queues sharing tail
node 0) links it once and makes it the tail of both queues. -/
theorem claim_C4_shared_tail_witness :
    (HeapModel.enqueueUpdate exH4 0 1).updates.length = exH4.updates.length
    ∧ (HeapModel.enqueueUpdate exH4 0 1).queues.length = exH4.queues.length
    ∧ ((HeapModel.enqueueUpdate exH4 0 1).getQ 0).lastUpdate = some 1
    ∧ ((HeapModel.enqueueUpdate exH4 0 1).getQ 1).lastUpdate = some 1
    ∧ HeapModel.IsChain (HeapModel.enqueueUpdate exH4 0 1)
        ((HeapModel.enqueueUpdate exH4 0 1).getQ 0).firstUpdate ([0] ++ [1])
    ∧ HeapModel.IsChain (HeapModel.enqueueUpdate exH4 0 1)
        ((HeapModel.enqueueUpdate exH4 0 1).getQ 1).firstUpdate ([0] ++ [1])
    ∧ ([0] ++ [1]).count 1 = 1
    ∧ ([0] ++ [1]).count 1 = 1 :=
  claim_C4_shared_tail exH4 0 1 0 1 0 1 [0] [0]
    rfl rfl rfl (by decide) (by decide) (by decide) (by decide)
    rfl rfl
    (HeapModel.IsChain.cons 0 [] HeapModel.IsChain.nil)
    (HeapModel.IsChain.cons 0 [] HeapModel.IsChain.nil)
    rfl rfl (by decide) (by decide) rfl

namespace HeapModel

/-- The normal-list loop writes queue objects only at index qi. -/
theorem processLoopNormal_getQ_ne (props : JVal) (renderET fi qi : Nat) :
    ∀ (fuel : Nat) (cursor : Option Nat) (acc : HAcc) (j : Nat), j ≠ qi →
      ((processLoopNormal props renderET fi qi fuel cursor acc).h).getQ j
        = acc.h.getQ j := by
  intro fuel
  induction fuel with
  | zero => intro cursor acc j hj; rfl
  | succ fuel ih =>
    intro cursor acc j hj
    cases cursor with
    | none => rfl
    | some ui =>
      obtain ⟨ah, anb, anf, anet, ars, ahf⟩ := acc
      simp only [processLoopNormal]
      by_cases hs : (ah.getU ui).expirationTime < renderET
      · rw [if_pos hs]
        cases anf <;> exact ih _ _ j hj
      · rw [if_neg hs]
        rw [ih _ _ j hj]
        rcases hcb : (ah.getU ui).callback with _ | cb
        · simp only [hcb]
          rfl
        · simp only [hcb]
          rcases hle : ((((ah.setF fi _).setF fi _).setU ui _).getQ qi).lastEffect
            with _ | le
          · simp only [hle]
            rw [getQ_setQ_ne _ _ _ _ hj]
            rfl
          · simp only [hle]
            rw [getQ_setQ_ne _ _ _ _ hj]
            rfl
end HeapModel

namespace HeapModel

/-- The captured-list loop writes queue objects only at index qi. -/
theorem processLoopCaptured_getQ_ne (props : JVal) (renderET fi qi : Nat)
    (flag : Bool) :
    ∀ (fuel : Nat) (cursor : Option Nat) (acc : HAccC) (j : Nat), j ≠ qi →
      ((processLoopCaptured props renderET fi qi flag fuel cursor acc).h).getQ j
        = acc.h.getQ j := by
  intro fuel
  induction fuel with
  | zero => intro cursor acc j hj; rfl
  | succ fuel ih =>
    intro cursor acc j hj
    cases cursor with
    | none => rfl
    | some ui =>
      obtain ⟨ah, anb, anf, anet, ars, ahf⟩ := acc
      simp only [processLoopCaptured]
      by_cases hs : (ah.getU ui).expirationTime < renderET
      · rw [if_pos hs]
        cases anf <;> exact ih _ _ j hj
      · rw [if_neg hs]
        rw [ih _ _ j hj]
        rcases hcb : (ah.getU ui).callback with _ | cb
        · simp only [hcb]
          rfl
        · simp only [hcb]
          rcases hle : ((((ah.setF fi _).setF fi _).setU ui _).getQ qi).lastCapturedEffect
            with _ | le
          · simp only [hle]
            rw [getQ_setQ_ne _ _ _ _ hj]
            rfl
          · simp only [hle]
            rw [getQ_setQ_ne _ _ _ _ hj]
            rfl

/-- When the current fiber holds the queue cqi, ensuring the clone never
touches the queue object cqi and never returns cqi itself. -/
theorem ensureClone_preserved (h : Heap) (fi qi ci cqi : Nat)
    (halt : (h.getF fi).alternate = some ci)
    (hcq : (h.getF ci).updateQueue = some cqi)
    (hlt : cqi < h.queues.length) :
    (ensureWorkInProgressQueueIsAClone h fi qi).1.getQ cqi = h.getQ cqi
    ∧ (ensureWorkInProgressQueueIsAClone h fi qi).2 ≠ cqi := by
  simp only [ensureWorkInProgressQueueIsAClone, halt, hcq]
  by_cases hqi : qi = cqi
  · subst hqi
    rw [if_pos rfl]
    constructor
    · show ((allocQ h (cloneNode (h.getQ qi))).1.setF fi _).getQ qi = _
      rw [getQ_setF]
      exact getQ_allocQ_old h _ qi hlt
    · show h.queues.length ≠ qi
      omega
  · rw [if_neg (by simp [Ne.symm hqi])]
    exact ⟨rfl, hqi⟩
end HeapModel

namespace HeapModel

/-- A full heap processUpdateQueue pass leaves every queue object other
than the (possibly cloned) work-in-progress queue untouched; in
particular the queue owned by the current fiber. -/
theorem processUpdateQueue_getQ_preserved (h : Heap) (fi qi ci cqi : Nat)
    (props : JVal) (d : Nat)
    (halt : (h.getF fi).alternate = some ci)
    (hcq : (h.getF ci).updateQueue = some cqi)
    (hlt : cqi < h.queues.length) :
    (processUpdateQueue h fi qi props d).1.getQ cqi = h.getQ cqi := by
  obtain ⟨hens, hne⟩ := ensureClone_preserved h fi qi ci cqi halt hcq hlt
  have hnecq : cqi ≠ (ensureWorkInProgressQueueIsAClone h fi qi).2 := Ne.symm hne
  simp only [processUpdateQueue]
  rw [getQ_setF, getQ_setQ_ne _ _ _ _ hnecq]
  split
  · rw [getQ_setQ_ne _ _ _ _ hnecq]
    split
    · rw [getQ_setQ_ne _ _ _ _ hnecq]
      rw [processLoopCaptured_getQ_ne _ _ _ _ _ _ _ _ _ hnecq]
      rw [processLoopNormal_getQ_ne _ _ _ _ _ _ _ _ hnecq]
      exact hens
    · rw [processLoopCaptured_getQ_ne _ _ _ _ _ _ _ _ _ hnecq]
      rw [processLoopNormal_getQ_ne _ _ _ _ _ _ _ _ hnecq]
      exact hens
  · rw [getQ_setF]
    split
    · rw [getQ_setQ_ne _ _ _ _ hnecq]
      rw [processLoopCaptured_getQ_ne _ _ _ _ _ _ _ _ _ hnecq]
      rw [processLoopNormal_getQ_ne _ _ _ _ _ _ _ _ hnecq]
      exact hens
    · rw [processLoopCaptured_getQ_ne _ _ _ _ _ _ _ _ _ hnecq]
      rw [processLoopNormal_getQ_ne _ _ _ _ _ _ _ _ hnecq]
      exact hens

/-- enqueueCapturedUpdate never touches the queue object owned by the
current fiber. -/
theorem enqueueCapturedUpdate_getQ_preserved (h : Heap) (fi ui ci cqi : Nat)
    (halt : (h.getF fi).alternate = some ci)
    (hcq : (h.getF ci).updateQueue = some cqi)
    (hlt : cqi < h.queues.length) :
    (enqueueCapturedUpdate h fi ui).getQ cqi = h.getQ cqi := by
  simp only [enqueueCapturedUpdate]
  rcases hwq : (h.getF fi).updateQueue with _ | qi0
  · simp only [hwq]
    have hnode : (((createUpdateQueue h (h.getF fi).memoizedState).1.setF fi
        { (createUpdateQueue h (h.getF fi).memoizedState).1.getF fi with
          updateQueue := some (createUpdateQueue h (h.getF fi).memoizedState).2 }).getQ
            (createUpdateQueue h (h.getF fi).memoizedState).2).lastCapturedUpdate
        = none := by
      rw [getQ_setF]
      simp only [createUpdateQueue]
      rw [getQ_allocQ_new]
    simp only [hnode]
    have hneq : cqi ≠ (createUpdateQueue h (h.getF fi).memoizedState).2 := by
      show cqi ≠ h.queues.length
      omega
    rw [getQ_setQ_ne _ _ _ _ hneq, getQ_setF]
    exact getQ_allocQ_old h _ cqi hlt
  · simp only [hwq]
    obtain ⟨hens, hne⟩ := ensureClone_preserved h fi qi0 ci cqi halt hcq hlt
    rcases hlc : (((ensureWorkInProgressQueueIsAClone h fi qi0).1).getQ
        (ensureWorkInProgressQueueIsAClone h fi qi0).2).lastCapturedUpdate
      with _ | li
    · simp only [hlc]
      rw [getQ_setQ_ne _ _ _ _ (Ne.symm hne)]
      exact hens
    · simp only [hlc]
      rw [getQ_setQ_ne _ _ _ _ (Ne.symm hne), getQ_setU]
      exact hens
end HeapModel

/-- Claim C10: when the work-in-progress queue is the same object as the
current queue, both enqueueCapturedUpdate and processUpdateQueue first
replace it with a private clone (a fresh queue object, never the current
one, holding the copied baseState and normal-list pointers with captured
and effect lists reset) before appending or mutating, so the current
queue object - its baseState, firstUpdate, lastUpdate and captured
lists - is unchanged by captured-update enqueueing and by any replay
pass. -/
theorem claim_C10_clone_before_mutate (h : HeapModel.Heap)
    (fi ci cqi ui qi : Nat) (props : JVal) (d : Nat)
    (halt : (h.getF fi).alternate = some ci)
    (hcq : (h.getF ci).updateQueue = some cqi)
    (hlt : cqi < h.queues.length)
    (hfi : fi < h.fibers.length) :
    (HeapModel.enqueueCapturedUpdate h fi ui).getQ cqi = h.getQ cqi
    ∧ (HeapModel.processUpdateQueue h fi qi props d).1.getQ cqi = h.getQ cqi
    ∧ ((HeapModel.ensureWorkInProgressQueueIsAClone h fi cqi).2 ≠ cqi
       ∧ ((HeapModel.ensureWorkInProgressQueueIsAClone h fi cqi).1.getF fi).updateQueue
           = some (HeapModel.ensureWorkInProgressQueueIsAClone h fi cqi).2
       ∧ (HeapModel.ensureWorkInProgressQueueIsAClone h fi cqi).1.getQ
           (HeapModel.ensureWorkInProgressQueueIsAClone h fi cqi).2
           = HeapModel.cloneNode (h.getQ cqi)
       ∧ (HeapModel.ensureWorkInProgressQueueIsAClone h fi cqi).1.getQ cqi
           = h.getQ cqi) := by
  refine ⟨HeapModel.enqueueCapturedUpdate_getQ_preserved h fi ui ci cqi halt hcq hlt,
    HeapModel.processUpdateQueue_getQ_preserved h fi qi ci cqi props d halt hcq hlt,
    (HeapModel.ensureClone_preserved h fi cqi ci cqi halt hcq hlt).2, ?_, ?_,
    (HeapModel.ensureClone_preserved h fi cqi ci cqi halt hcq hlt).1⟩
  · simp only [HeapModel.ensureWorkInProgressQueueIsAClone, halt, hcq,
      if_pos rfl, HeapModel.cloneUpdateQueue, if_true, ite_true]
    rw [HeapModel.getF_setF_self]
    show fi < h.fibers.length
    exact hfi
  · simp only [HeapModel.ensureWorkInProgressQueueIsAClone, halt, hcq,
      if_pos rfl, HeapModel.cloneUpdateQueue, if_true, ite_true]
    rw [HeapModel.getQ_setF]
    exact HeapModel.getQ_allocQ_new h _

/-- Witness for claim C10 on exH4: fiber 0 is the work-in-progress whose
alternate fiber 1 (current) owns queue 1; captured enqueueing and a full
replay pass leave queue object 1 untouched, and the clone step yields a
fresh private queue. -/
theorem claim_C10_clone_before_mutate_witness :
    (HeapModel.enqueueCapturedUpdate exH4 0 1).getQ 1 = exH4.getQ 1
    ∧ (HeapModel.processUpdateQueue exH4 0 0 .jnull 0).1.getQ 1 = exH4.getQ 1
    ∧ ((HeapModel.ensureWorkInProgressQueueIsAClone exH4 0 1).2 ≠ 1
       ∧ ((HeapModel.ensureWorkInProgressQueueIsAClone exH4 0 1).1.getF 0).updateQueue
           = some (HeapModel.ensureWorkInProgressQueueIsAClone exH4 0 1).2
       ∧ (HeapModel.ensureWorkInProgressQueueIsAClone exH4 0 1).1.getQ
           (HeapModel.ensureWorkInProgressQueueIsAClone exH4 0 1).2
           = HeapModel.cloneNode (exH4.getQ 1)
       ∧ (HeapModel.ensureWorkInProgressQueueIsAClone exH4 0 1).1.getQ 1
           = exH4.getQ 1) :=
  claim_C10_clone_before_mutate exH4 0 1 1 1 0 .jnull 0 rfl rfl
    (by decide) (by decide)

namespace HeapModel

/-- Lengths of the queue arena are unchanged by writes. -/
theorem queues_length_setQ (h : Heap) (i : Nat) (q : QNode) :
    (h.setQ i q).queues.length = h.queues.length := by
  simp [Heap.setQ]

theorem queues_length_setU (h : Heap) (i : Nat) (u : UNode) :
    (h.setU i u).queues.length = h.queues.length := rfl

theorem queues_length_setF (h : Heap) (i : Nat) (f : FNode) :
    (h.setF i f).queues.length = h.queues.length := rfl

/-- Normal form of commitUpdateQueue when the captured head and the
normal tail are both non-null and the effect lists are empty: the
captured chain is linked onto the tail node, the tail pointer moves to
the captured tail, and the captured and effect pointers are cleared
while the normal head is untouched. -/
theorem commitUpdateQueue_spliced (h : Heap) (qi fc lu : Nat)
    (hqi : qi < h.queues.length)
    (hfc : (h.getQ qi).firstCapturedUpdate = some fc)
    (hlu : (h.getQ qi).lastUpdate = some lu)
    (hfe : (h.getQ qi).firstEffect = none)
    (hfce : (h.getQ qi).firstCapturedEffect = none) :
    ∃ h2, commitUpdateQueue h qi = .ok h2
      ∧ h2.updates = h.updates.set lu { h.getU lu with next := some fc }
      ∧ (h2.getQ qi).firstUpdate = (h.getQ qi).firstUpdate
      ∧ (h2.getQ qi).lastUpdate = (h.getQ qi).lastCapturedUpdate
      ∧ (h2.getQ qi).firstCapturedUpdate = none
      ∧ (h2.getQ qi).lastCapturedUpdate = none := by
  simp only [commitUpdateQueue, getQ_setU, hfc, hlu, getQ_setQ_self,
    queues_length_setQ, queues_length_setU, hqi, hfe, hfce,
    commitUpdateEffects]
  refine ⟨_, rfl, rfl, ?_, ?_, ?_, ?_⟩ <;>
    simp only [getQ_setQ_self, queues_length_setQ, queues_length_setU, hqi]

end HeapModel

namespace HeapModel

/-- Normal form of commitUpdateQueue when the captured head is non-null
but the normal tail pointer is null: the captured pointers are simply
cleared, so the captured list is dropped. -/
theorem commitUpdateQueue_dropped (h : Heap) (qi fc : Nat)
    (hqi : qi < h.queues.length)
    (hfc : (h.getQ qi).firstCapturedUpdate = some fc)
    (hlu : (h.getQ qi).lastUpdate = none)
    (hfe : (h.getQ qi).firstEffect = none)
    (hfce : (h.getQ qi).firstCapturedEffect = none) :
    ∃ h2, commitUpdateQueue h qi = .ok h2
      ∧ h2.updates = h.updates
      ∧ (h2.getQ qi).firstUpdate = (h.getQ qi).firstUpdate
      ∧ (h2.getQ qi).firstCapturedUpdate = none
      ∧ (h2.getQ qi).lastCapturedUpdate = none := by
  simp only [commitUpdateQueue, hfc, hlu, getQ_setQ_self,
    queues_length_setQ, hqi, hfe, hfce, commitUpdateEffects]
  refine ⟨_, rfl, rfl, ?_, ?_, ?_⟩ <;>
    simp only [getQ_setQ_self, queues_length_setQ, hqi]

end HeapModel

/-- Claim C3 amended: when the committed queue still has a non-empty
normal list (lastUpdate non-null), commitUpdateQueue splices the entire
captured list onto the tail of the normal list and clears the captured
pointers, so the normal chain becomes the old normal chain followed by
the whole captured chain; when the normal list is empty (lastUpdate
null), the captured pointers are cleared without splicing and the
captured list is dropped. -/
theorem claim_C3_amended (h : HeapModel.Heap) (qi fc lu : Nat)
    (l1 l2 : List Nat)
    (hqi : qi < h.queues.length)
    (hfc : (h.getQ qi).firstCapturedUpdate = some fc)
    (hfe : (h.getQ qi).firstEffect = none)
    (hfce : (h.getQ qi).firstCapturedEffect = none) :
    ((h.getQ qi).lastUpdate = some lu →
      HeapModel.IsChain h (h.getQ qi).firstUpdate l1 →
      l1.getLast? = some lu →
      HeapModel.IsChain h (some fc) l2 →
      lu ∉ l2 → lu < h.updates.length →
      ∃ h2, HeapModel.commitUpdateQueue h qi = .ok h2
        ∧ (h2.getQ qi).firstUpdate = (h.getQ qi).firstUpdate
        ∧ (h2.getQ qi).lastUpdate = (h.getQ qi).lastCapturedUpdate
        ∧ (h2.getQ qi).firstCapturedUpdate = none
        ∧ (h2.getQ qi).lastCapturedUpdate = none
        ∧ HeapModel.IsChain h2 ((h2.getQ qi).firstUpdate) (l1 ++ l2))
    ∧ ((h.getQ qi).lastUpdate = none →
      ∃ h2, HeapModel.commitUpdateQueue h qi = .ok h2
        ∧ (h2.getQ qi).firstUpdate = (h.getQ qi).firstUpdate
        ∧ (h2.getQ qi).firstCapturedUpdate = none
        ∧ (h2.getQ qi).lastCapturedUpdate = none) := by
  constructor
  · intro hlu hc1 hl1 hc2 hmem hbl
    obtain ⟨h2, hrun, hupd, hfu, hl, hfcu, hlcu⟩ :=
      HeapModel.commitUpdateQueue_spliced h qi fc lu hqi hfc hlu hfe hfce
    refine ⟨h2, hrun, hfu, hl, hfcu, hlcu, ?_⟩
    rw [hfu]
    refine HeapModel.isChain_of_updates_eq ?_
      (HeapModel.isChain_append lu fc l2 hc2 hmem hbl l1 _ hc1 hl1)
    rw [hupd]
    rfl
  · intro hlu
    obtain ⟨h2, hrun, _, hfu, hfcu, hlcu⟩ :=
      HeapModel.commitUpdateQueue_dropped h qi fc hqi hfc hlu hfe hfce
    exact ⟨h2, hrun, hfu, hfcu, hlcu⟩

/-- Counterexample to claim C3 as stated.  On the heap exH3 the finished
queue has a non-empty captured list (record 0) but an empty normal list
(lastUpdate null); commitUpdateQueue does not splice: after commit both
heads and both tails are null, so the captured update is no longer
reachable from the queue - it is dropped, not preserved. -/
theorem claim_C3_counterexample :
    (exH3.getQ 0).firstCapturedUpdate = some 0
    ∧ (HeapModel.commitUpdateQueue exH3 0).map
        (fun h2 => ((h2.getQ 0).firstUpdate, (h2.getQ 0).firstCapturedUpdate,
                    (h2.getQ 0).lastUpdate, (h2.getQ 0).lastCapturedUpdate))
      = .ok (none, none, none, none) :=
  ⟨rfl, rfl⟩

/-- Witness for the amended claim C3 on exH3b: with normal chain [0] and
captured chain [1], commit splices so that the normal chain becomes
[0, 1], the tail pointer moves to the captured tail, and the captured
pointers are cleared. -/
theorem claim_C3_amended_witness :
    ∃ h2, HeapModel.commitUpdateQueue exH3b 0 = .ok h2
      ∧ (h2.getQ 0).firstUpdate = (exH3b.getQ 0).firstUpdate
      ∧ (h2.getQ 0).lastUpdate = (exH3b.getQ 0).lastCapturedUpdate
      ∧ (h2.getQ 0).firstCapturedUpdate = none
      ∧ (h2.getQ 0).lastCapturedUpdate = none
      ∧ HeapModel.IsChain h2 ((h2.getQ 0).firstUpdate) ([0] ++ [1]) :=
  (claim_C3_amended exH3b 0 1 0 [0] [1] (by decide) rfl rfl rfl).1
    rfl (HeapModel.IsChain.cons 0 [] HeapModel.IsChain.nil) rfl
    (HeapModel.IsChain.cons 1 [] HeapModel.IsChain.nil) (by decide) (by decide)
